import Mathlib

/-!
Verification of the Case-Lens PDF processing core (`src/caselens/pdf_processor.py`
and `src/caselens/ocr.py`) against its natural-language specification.

Texts are modelled as `List Char` (one element per Unicode code point, matching
Python's `str` indexing and `len`).  Machine floats appear in the source only in
the scanned-page ratio test `sparse / len(pages) >= 0.80`; because the two sides
of that comparison can only be closer than one part in `5 * len(pages)` when they
are exactly equal, the float comparison coincides with the exact rational
comparison `5 * sparse >= 4 * len(pages)` for every page count the program can
see, and the embedding uses the exact form.
-/

namespace CaseLens

/-- Python's whitespace predicate (`str.isspace`, as used by `str.strip` and the
regex class `\s`): ASCII whitespace, the C1 controls `\x1c`-`\x1f`, NEL, NBSP and
the Unicode space separators. -/
def isPyWs (c : Char) : Bool :=
  c = ' ' || c = '\t' || c = '\n' || c = '\r' || c.val = 0x0b || c.val = 0x0c ||
  (0x1c ≤ c.val && c.val ≤ 0x1f) || c.val = 0x85 || c.val = 0xa0 ||
  c.val = 0x1680 || (0x2000 ≤ c.val && c.val ≤ 0x200a) ||
  c.val = 0x2028 || c.val = 0x2029 || c.val = 0x202f || c.val = 0x205f ||
  c.val = 0x3000

/-- Python `str.strip()`: drop leading and trailing whitespace. -/
def pyStrip (l : List Char) : List Char :=
  ((l.dropWhile isPyWs).reverse.dropWhile isPyWs).reverse

/-- Python `str.rstrip()`: drop trailing whitespace. -/
def pyRstrip (l : List Char) : List Char :=
  (l.reverse.dropWhile isPyWs).reverse

/-- Python slicing `l[a:b]` for `0 ≤ a ≤ b` (as used by the chunker, where the
bounds are always within range). -/
def sliceL (l : List Char) (a b : Nat) : List Char :=
  (l.drop a).take (b - a)

/-- A page record as produced by `_extract_with_pdfplumber` / `_extract_with_pypdf`
(`pdf_processor.py`): `page_number`, `raw_text`, `has_images`, plus the
`cleaned_text` key that `process` adds before chunking (empty until then). -/
structure Page where
  page_number : Nat
  raw_text : List Char
  has_images : Bool
  cleaned_text : List Char := []
  deriving Repr, DecidableEq

/-- `PdfProcessor.MAX_CHUNK_SIZE`. -/
def MAX_CHUNK_SIZE : Nat := 80000

/-- `PdfProcessor.CHUNK_OVERLAP`. -/
def CHUNK_OVERLAP : Nat := 500

/-- `PdfProcessor.SCANNED_MIN_CHARS_PER_PAGE`. -/
def SCANNED_MIN_CHARS_PER_PAGE : Nat := 50

/-- `PdfProcessor.MAX_PAGES`. -/
def MAX_PAGES : Nat := 500

/-- The sparse-page test of `_detect_scanned` and `_attempt_ocr`:
`len(p["raw_text"].strip()) < self.SCANNED_MIN_CHARS_PER_PAGE`. -/
def isSparse (p : Page) : Bool :=
  (pyStrip p.raw_text).length < SCANNED_MIN_CHARS_PER_PAGE

/-- `PdfProcessor._detect_scanned`: empty input is never scanned; otherwise the
document counts as scanned when the sparse fraction reaches the 0.80 ratio
(`SCANNED_PAGE_RATIO`; exact rational form of the float test, see the file
header). -/
def detect_scanned (pages : List Page) : Bool :=
  if pages.isEmpty then false
  else 4 * pages.length ≤ 5 * pages.countP (fun p => isSparse p)

/-- A page with no text at all (used as a concrete sample in witnesses). -/
def blankPage : Page := { page_number := 1, raw_text := [], has_images := true }

/-- C6: the scanned-document detector returns false for an empty page list; for
every non-empty page list it returns true exactly when the fraction of pages
whose trimmed raw text is shorter than 50 characters is at least 0.80. -/
theorem detect_scanned_spec :
    detect_scanned [] = false ∧
    ∀ pages : List Page, pages ≠ [] →
      (detect_scanned pages = true ↔
        (4 : ℚ) / 5 ≤ (pages.countP (fun p => isSparse p) : ℚ) / pages.length) := by
  refine ⟨rfl, fun pages hne => ?_⟩
  have hlen : 0 < pages.length := List.length_pos.mpr hne
  have hq : (0 : ℚ) < (pages.length : ℚ) := by exact_mod_cast hlen
  rw [detect_scanned, if_neg (by simpa [List.isEmpty_iff] using hne)]
  rw [div_le_div_iff₀ (by norm_num) hq, decide_eq_true_eq]
  rw [show ((pages.countP (fun p => isSparse p) : ℚ)) * 5 =
      ((5 * pages.countP (fun p => isSparse p) : ℕ) : ℚ) by push_cast; ring]
  exact_mod_cast Iff.rfl

/-- Witness for C6 at the one-page document `[blankPage]`. -/
theorem detect_scanned_spec_witness :
    detect_scanned [blankPage] = true ↔
      (4 : ℚ) / 5 ≤
        (([blankPage] : List Page).countP (fun p => isSparse p) : ℚ) /
          ([blankPage] : List Page).length :=
  detect_scanned_spec.2 [blankPage] (by simp)

/-! ## Chunker (`_chunk_pages`, `_find_break_point`, `_find_source_pages`) -/

/-- The uppercase class of the sentence-break regex
`\.\s+(?=[A-ZÀ-Ü])` in `_find_break_point`. -/
def isUpperBreak (c : Char) : Bool :=
  (0x41 ≤ c.val && c.val ≤ 0x5A) || (0xC0 ≤ c.val && c.val ≤ 0xDC)

/-- Python `region.rfind("\n\n")`: index of the last occurrence of two
consecutive newlines, if any. -/
def rfindTwoNl : List Char → Option Nat
  | [] => none
  | [_] => none
  | a :: b :: rest =>
    match rfindTwoNl (b :: rest) with
    | some j => some (j + 1)
    | none => if a = '\n' ∧ b = '\n' then some 0 else none

/-- Length of the leading whitespace run. -/
def wsRun : List Char → Nat
  | [] => 0
  | c :: rest => if isPyWs c then wsRun rest + 1 else 0

/-- A match of the sentence-break regex `\.\s+(?=[A-ZÀ-Ü])` anchored at
the head of the list: a period, a non-empty greedy whitespace run, and a
lookahead requiring the next character to be uppercase.  Returns the end offset
of the match (the lookahead consumes nothing). -/
def sentenceMatchEnd : List Char → Option Nat
  | [] => none
  | c :: rest =>
    if c = '.' then
      if 0 < wsRun rest then
        match rest.get? (wsRun rest) with
        | some u => if isUpperBreak u then some (wsRun rest + 1) else none
        | none => none
      else none
    else none

/-- `matches[-1].end()` for `finditer` of the sentence-break regex: the end of
the last match.  Matches of this regex can never overlap (a match is a period
followed by whitespace, and a period is not whitespace), so the last match is
simply the match starting at the last matching position. -/
def lastSentenceEnd : List Char → Option Nat
  | [] => none
  | c :: rest =>
    match lastSentenceEnd rest with
    | some j => some (j + 1)
    | none => sentenceMatchEnd (c :: rest)

/-- `PdfProcessor._find_break_point`: prefer the last paragraph break in the
2000-character window before `e`, then the last sentence break, else `e`. -/
def find_break_point (text : List Char) (start e : Nat) : Nat :=
  let ss := max start (e - 2000)
  let region := sliceL text ss e
  match rfindTwoNl region with
  | some i => ss + i + 2
  | none =>
    match lastSentenceEnd region with
    | some j => ss + j
    | none => e

/-- A chunk record: `chunk_index`, `text`, `char_count`, `source_pages`
(`[first_page, last_page]` modelled as a pair). -/
structure Chunk where
  chunk_index : Nat
  text : List Char
  char_count : Nat
  source_pages : Nat × Nat
  deriving Repr, DecidableEq

/-- The `for offset, page_num in page_boundaries: if q(offset): x = page_num`
loop of `_find_source_pages`, with `d` the current value of `x`. -/
def lastSel (q : Nat → Bool) : List (Nat × Nat) → Nat → Nat
  | [], d => d
  | (off, pg) :: rest, d => if q off then lastSel q rest pg else lastSel q rest d

/-- `PdfProcessor._find_source_pages`: map a character range to
`(first_page, last_page)`; both scans start from `page_boundaries[0]`. -/
def find_source_pages (start e : Nat) (bounds : List (Nat × Nat)) : Nat × Nat :=
  let d := (bounds.headD (0, 0)).2
  (lastSel (fun off => decide (off ≤ start)) bounds d,
   lastSel (fun off => decide (off < e)) bounds d)

/-- The concatenation pass of `_chunk_pages`: build the full text (each page's
`cleaned_text` followed by a blank line) and the `(char_offset, page_number)`
boundary table, the offset recorded before the page's text is appended. -/
def build_full (pages : List Page) : List Char × List (Nat × Nat) :=
  pages.foldl
    (fun acc p =>
      (acc.1 ++ p.cleaned_text ++ ['\n', '\n'],
       acc.2 ++ [(acc.1.length, p.page_number)]))
    ([], [])

/-- The concatenated document text after `full_text = full_text.rstrip()`. -/
def doc_full (pages : List Page) : List Char := pyRstrip (build_full pages).1

/-- The position the loop advances to after breaking at `bp`:
`new_pos = break_point - CHUNK_OVERLAP`, replaced by `break_point` itself when
that would not advance past `pos` (the degenerate forward-progress case). -/
def next_pos (pos bp : Nat) : Nat :=
  if bp - CHUNK_OVERLAP ≤ pos then bp else bp - CHUNK_OVERLAP

/-- The `while pos < len(full_text)` loop of `_chunk_pages`.  `fuel` is an upper
bound on the number of iterations; every iteration advances `pos` by at least
one, so `full.length + 1` is always enough. -/
def chunk_loop (full : List Char) (bounds : List (Nat × Nat)) :
    Nat → Nat → Nat → List Chunk
  | pos, idx, fuel =>
    if fuel = 0 then []
    else if pos < full.length then
      if full.length ≤ pos + MAX_CHUNK_SIZE then
        if pyStrip (sliceL full pos full.length) = [] then []
        else [⟨idx, pyStrip (sliceL full pos full.length),
              (pyStrip (sliceL full pos full.length)).length,
              find_source_pages pos full.length bounds⟩]
      else
        if pyStrip (sliceL full pos (find_break_point full pos (pos + MAX_CHUNK_SIZE))) = [] then
          chunk_loop full bounds
            (next_pos pos (find_break_point full pos (pos + MAX_CHUNK_SIZE))) idx (fuel - 1)
        else
          ⟨idx, pyStrip (sliceL full pos (find_break_point full pos (pos + MAX_CHUNK_SIZE))),
            (pyStrip (sliceL full pos (find_break_point full pos (pos + MAX_CHUNK_SIZE)))).length,
            find_source_pages pos (find_break_point full pos (pos + MAX_CHUNK_SIZE)) bounds⟩ ::
          chunk_loop full bounds
            (next_pos pos (find_break_point full pos (pos + MAX_CHUNK_SIZE))) (idx + 1) (fuel - 1)
    else []
  termination_by pos idx fuel => fuel
  decreasing_by all_goals omega

/-- `PdfProcessor._chunk_pages`. -/
def chunk_pages (pages : List Page) : List Chunk :=
  let fb := build_full pages
  let full := pyRstrip fb.1
  if full = [] then []
  else if full.length ≤ MAX_CHUNK_SIZE then
    [⟨0, full, full.length,
      ((pages.headD blankPage).page_number, (pages.getLastD blankPage).page_number)⟩]
  else chunk_loop full fb.2 0 0 (full.length + 1)

/-- The source region `(pos, end)` of each chunk `chunk_loop` emits, in emission
order (`end` is the break point, or the text length for the final chunk).  Same
control flow as `chunk_loop`; used to state the overlap property P3, which
speaks about regions before trimming. -/
def region_loop (full : List Char) : Nat → Nat → List (Nat × Nat)
  | pos, fuel =>
    if fuel = 0 then []
    else if pos < full.length then
      if full.length ≤ pos + MAX_CHUNK_SIZE then
        if pyStrip (sliceL full pos full.length) = [] then []
        else [(pos, full.length)]
      else
        if pyStrip (sliceL full pos (find_break_point full pos (pos + MAX_CHUNK_SIZE))) = [] then
          region_loop full
            (next_pos pos (find_break_point full pos (pos + MAX_CHUNK_SIZE))) (fuel - 1)
        else
          (pos, find_break_point full pos (pos + MAX_CHUNK_SIZE)) ::
          region_loop full
            (next_pos pos (find_break_point full pos (pos + MAX_CHUNK_SIZE))) (fuel - 1)
    else []
  termination_by pos fuel => fuel
  decreasing_by all_goals omega

/-- The source regions of the chunks of a document (the whole text for the
single-chunk branch of `_chunk_pages`). -/
def chunk_regions (pages : List Page) : List (Nat × Nat) :=
  let full := doc_full pages
  if full = [] then []
  else if full.length ≤ MAX_CHUNK_SIZE then [(0, full.length)]
  else region_loop full 0 (full.length + 1)

/-! ## Bounds on the break point and chunk sizes -/

theorem pyStrip_length_le (l : List Char) : (pyStrip l).length ≤ l.length := by
  unfold pyStrip
  calc ((l.dropWhile isPyWs).reverse.dropWhile isPyWs).reverse.length
      = ((l.dropWhile isPyWs).reverse.dropWhile isPyWs).length := List.length_reverse _
    _ ≤ (l.dropWhile isPyWs).reverse.length := (List.dropWhile_sublist _).length_le
    _ = (l.dropWhile isPyWs).length := List.length_reverse _
    _ ≤ l.length := (List.dropWhile_sublist _).length_le

theorem sliceL_length_le (l : List Char) (a b : Nat) :
    (sliceL l a b).length ≤ b - a := by
  unfold sliceL
  exact (List.length_take_le _ _).trans_eq rfl

theorem sliceL_length (l : List Char) (a b : Nat) (hab : a ≤ b)
    (hb : b ≤ l.length) : (sliceL l a b).length = b - a := by
  unfold sliceL
  rw [List.length_take, List.length_drop]
  omega

theorem rfindTwoNl_bound : ∀ (l : List Char) (i : Nat),
    rfindTwoNl l = some i → i + 2 ≤ l.length
  | [], i, h => by simp [rfindTwoNl] at h
  | [_], i, h => by simp [rfindTwoNl] at h
  | a :: b :: rest, i, h => by
    rw [rfindTwoNl] at h
    cases hin : rfindTwoNl (b :: rest) with
    | some j =>
      rw [hin] at h
      have hj := rfindTwoNl_bound (b :: rest) j hin
      have hji : j + 1 = i := by simpa using h
      simp only [List.length_cons] at hj ⊢
      omega
    | none =>
      rw [hin] at h
      by_cases hab : a = '\n' ∧ b = '\n'
      · rw [if_pos hab] at h
        have h0 : (0 : Nat) = i := by simpa using h
        simp only [List.length_cons]
        omega
      · rw [if_neg hab] at h
        exact absurd h (by simp)

theorem wsRun_le (l : List Char) : wsRun l ≤ l.length := by
  induction l with
  | nil => simp [wsRun]
  | cons c rest ih =>
    rw [wsRun]
    split <;> simp <;> omega

theorem sentenceMatchEnd_bound (l : List Char) (j : Nat)
    (h : sentenceMatchEnd l = some j) : 2 ≤ j ∧ j ≤ l.length := by
  match l with
  | [] => simp [sentenceMatchEnd] at h
  | c :: rest =>
    rw [sentenceMatchEnd] at h
    by_cases hc : c = '.'
    case neg => rw [if_neg hc] at h; exact absurd h (by simp)
    rw [if_pos hc] at h
    by_cases hk : 0 < wsRun rest
    case neg => rw [if_neg hk] at h; exact absurd h (by simp)
    rw [if_pos hk] at h
    cases hget : rest.get? (wsRun rest) with
    | some u =>
      simp only [hget] at h
      by_cases hu : isUpperBreak u = true
      · rw [if_pos hu] at h
        have hj : wsRun rest + 1 = j := by simpa using h
        have hlt : wsRun rest < rest.length := List.get?_eq_some.mp hget |>.1
        simp only [List.length_cons]
        omega
      · rw [if_neg hu] at h
        exact absurd h (by simp)
    | none =>
      simp only [hget] at h
      exact absurd h (by simp)

theorem lastSentenceEnd_bound : ∀ (l : List Char) (j : Nat),
    lastSentenceEnd l = some j → 2 ≤ j ∧ j ≤ l.length
  | [], j, h => by simp [lastSentenceEnd] at h
  | c :: rest, j, h => by
    rw [lastSentenceEnd] at h
    cases hin : lastSentenceEnd rest with
    | some j' =>
      rw [hin] at h
      simp only [Option.some.injEq] at h
      have := lastSentenceEnd_bound rest j' hin
      simp only [List.length_cons]
      omega
    | none =>
      rw [hin] at h
      exact sentenceMatchEnd_bound _ _ h

/-- The break point never exceeds the candidate end `e`. -/
theorem find_break_point_le (text : List Char) (pos e : Nat) (hpe : pos ≤ e) :
    find_break_point text pos e ≤ e := by
  rw [find_break_point]
  have hss : max pos (e - 2000) ≤ e := by omega
  have hlen : (sliceL text (max pos (e - 2000)) e).length ≤ e - max pos (e - 2000) :=
    sliceL_length_le _ _ _
  split
  · rename_i i hi
    have := rfindTwoNl_bound _ _ hi
    omega
  · split
    · rename_i j hj
      have := lastSentenceEnd_bound _ _ hj
      omega
    · exact le_rfl

/-- In a non-final iteration the break point lies at least
`MAX_CHUNK_SIZE - 2000 + 2 = 78002` characters past `pos`. -/
theorem find_break_point_lb (text : List Char) (pos : Nat) :
    pos + 78002 ≤ find_break_point text pos (pos + MAX_CHUNK_SIZE) := by
  have hss : pos + 78000 = max pos (pos + MAX_CHUNK_SIZE - 2000) := by
    rw [MAX_CHUNK_SIZE]; omega
  rw [find_break_point]
  split
  · omega
  · split
    · rename_i j hj
      have := lastSentenceEnd_bound _ _ hj
      omega
    · rw [MAX_CHUNK_SIZE]; omega

/-- Every chunk the loop emits has `char_count = len(text) ≤ MAX_CHUNK_SIZE`. -/
theorem chunk_loop_size (full : List Char) (bounds : List (Nat × Nat)) :
    ∀ (fuel pos idx : Nat), ∀ c ∈ chunk_loop full bounds pos idx fuel,
      c.char_count = c.text.length ∧ c.char_count ≤ MAX_CHUNK_SIZE := by
  intro fuel
  induction fuel with
  | zero =>
    intro pos idx c hc
    rw [chunk_loop] at hc
    simp at hc
  | succ f ih =>
    intro pos idx c hc
    rw [chunk_loop] at hc
    simp only [Nat.succ_ne_zero, if_false] at hc
    split at hc
    · split at hc
      · split at hc
        · simp at hc
        · rename_i hlt hle _
          simp only [List.mem_singleton] at hc
          subst hc
          refine ⟨rfl, ?_⟩
          have h1 := pyStrip_length_le (sliceL full pos full.length)
          have h2 := sliceL_length_le full pos full.length
          simp only
          omega
      · split at hc
        · exact ih _ _ c hc
        · rename_i hlt hgt _
          rcases List.mem_cons.mp hc with hc | hc
          · subst hc
            refine ⟨rfl, ?_⟩
            have hbp := find_break_point_le full pos (pos + MAX_CHUNK_SIZE) (by omega)
            have h1 := pyStrip_length_le
              (sliceL full pos (find_break_point full pos (pos + MAX_CHUNK_SIZE)))
            have h2 := sliceL_length_le full pos
              (find_break_point full pos (pos + MAX_CHUNK_SIZE))
            simp only
            omega
          · exact ih _ _ c hc
    · simp at hc

/-- Every chunk of a document has `char_count = len(text) ≤ MAX_CHUNK_SIZE`
(including the single-chunk branch). -/
theorem chunk_pages_char_count (pages : List Page) :
    ∀ c ∈ chunk_pages pages, c.char_count = c.text.length ∧
      c.char_count ≤ MAX_CHUNK_SIZE := by
  intro c hc
  rw [chunk_pages] at hc
  split at hc
  · simp at hc
  · split at hc
    · rename_i hne hle
      simp only [List.mem_singleton] at hc
      subst hc
      exact ⟨rfl, hle⟩
    · exact chunk_loop_size _ _ _ _ _ c hc

/-- C4: every chunk's `char_count` equals the length of its text, and every
chunk except possibly the last satisfies `char_count ≤ MAX_CHUNK_SIZE`
(in fact the code guarantees the bound for the last chunk as well). -/
theorem chunk_size_spec (pages : List Page) :
    ((chunk_pages pages).all fun c => c.char_count == c.text.length) = true ∧
    ((chunk_pages pages).dropLast.all
      fun c => decide (c.char_count ≤ MAX_CHUNK_SIZE)) = true := by
  constructor
  · rw [List.all_eq_true]
    intro c hc
    exact beq_iff_eq.mpr (chunk_pages_char_count pages c hc).1
  · rw [List.all_eq_true]
    intro c hc
    exact decide_eq_true_eq.mpr
      (chunk_pages_char_count pages c ((List.dropLast_prefix _).subset hc)).2

/-! ## Source-page monotonicity -/

/-- The scan of `_find_source_pages` is monotone: with a pointwise stronger
selection predicate and a smaller fallback it selects a page at most as large,
provided the page numbers along the table are non-decreasing and bound the
fallback from below. -/
theorem lastSel_le_lastSel (P Q : Nat → Bool) (hPQ : ∀ o, P o = true → Q o = true) :
    ∀ (bs : List (Nat × Nat)) (d d' : Nat), d ≤ d' → (∀ pr ∈ bs, d ≤ pr.2) →
      List.Pairwise (fun a b : Nat × Nat => a.2 ≤ b.2) bs →
      lastSel P bs d ≤ lastSel Q bs d'
  | [], d, d', hdd, _, _ => hdd
  | (off, pg) :: rest, d, d', hdd, hall, hpw => by
    rw [lastSel, lastSel]
    have hdpg : d ≤ pg := hall (off, pg) (List.mem_cons_self _ _)
    have hpw' := List.pairwise_cons.mp hpw
    by_cases hP : P off = true
    · rw [if_pos hP, if_pos (hPQ off hP)]
      exact lastSel_le_lastSel P Q hPQ rest pg pg le_rfl
        (fun pr hpr => hpw'.1 pr hpr) hpw'.2
    · rw [if_neg hP]
      by_cases hQ : Q off = true
      · rw [if_pos hQ]
        exact lastSel_le_lastSel P Q hPQ rest d pg hdpg
          (fun pr hpr => hall pr (List.mem_cons_of_mem _ hpr)) hpw'.2
      · rw [if_neg hQ]
        exact lastSel_le_lastSel P Q hPQ rest d d' hdd
          (fun pr hpr => hall pr (List.mem_cons_of_mem _ hpr)) hpw'.2

/-- With non-decreasing page numbers, the first entry's page bounds all pages. -/
theorem headD_le_of_pairwise (bs : List (Nat × Nat))
    (hpw : List.Pairwise (fun a b : Nat × Nat => a.2 ≤ b.2) bs) :
    ∀ pr ∈ bs, (bs.headD (0, 0)).2 ≤ pr.2 := by
  match bs with
  | [] => intro pr hpr; simp at hpr
  | b :: rest =>
    intro pr hpr
    rcases List.mem_cons.mp hpr with h | h
    · subst h; exact le_rfl
    · exact (List.pairwise_cons.mp hpw).1 pr h

theorem find_source_pages_fst_le_snd (s e : Nat) (hse : s < e)
    (bs : List (Nat × Nat))
    (hpw : List.Pairwise (fun a b : Nat × Nat => a.2 ≤ b.2) bs) :
    (find_source_pages s e bs).1 ≤ (find_source_pages s e bs).2 := by
  rw [find_source_pages]
  exact lastSel_le_lastSel _ _
    (fun o ho => by simp only [decide_eq_true_eq] at *; omega)
    bs _ _ le_rfl (headD_le_of_pairwise bs hpw) hpw

theorem find_source_pages_mono (s e s' e' : Nat) (hs : s ≤ s') (he : e ≤ e')
    (bs : List (Nat × Nat))
    (hpw : List.Pairwise (fun a b : Nat × Nat => a.2 ≤ b.2) bs) :
    (find_source_pages s e bs).1 ≤ (find_source_pages s' e' bs).1 ∧
    (find_source_pages s e bs).2 ≤ (find_source_pages s' e' bs).2 := by
  rw [find_source_pages, find_source_pages]
  constructor
  · exact lastSel_le_lastSel _ _
      (fun o ho => by simp only [decide_eq_true_eq] at *; omega)
      bs _ _ le_rfl (headD_le_of_pairwise bs hpw) hpw
  · exact lastSel_le_lastSel _ _
      (fun o ho => by simp only [decide_eq_true_eq] at *; omega)
      bs _ _ le_rfl (headD_le_of_pairwise bs hpw) hpw

/-- The boundary table records exactly the documents' page numbers, in order. -/
theorem build_full_bounds_pages : ∀ (pages : List Page) (acc : List Char × List (Nat × Nat)),
    ((pages.foldl
      (fun acc p =>
        (acc.1 ++ p.cleaned_text ++ ['\n', '\n'],
         acc.2 ++ [(acc.1.length, p.page_number)]))
      acc).2).map (·.2) = acc.2.map (·.2) ++ pages.map (·.page_number)
  | [], acc => by simp
  | p :: rest, acc => by
    rw [List.foldl_cons, build_full_bounds_pages rest]
    simp

theorem build_full_pages_map (pages : List Page) :
    ((build_full pages).2).map (·.2) = pages.map (·.page_number) := by
  rw [build_full, build_full_bounds_pages]
  simp

/-- Facts holding of every source region `(start, end)` the loop emits when
started at `pos`: it begins at or after `pos`, is non-empty, stays inside the
text, spans at most `MAX_CHUNK_SIZE` characters, and either spans at least
`78002` characters (a split chunk) or runs to the end of the text (the final
chunk). -/
def RegionOK (full : List Char) (pos : Nat) (r : Nat × Nat) : Prop :=
  pos ≤ r.1 ∧ r.1 < r.2 ∧ r.2 ≤ full.length ∧ r.2 ≤ r.1 + MAX_CHUNK_SIZE ∧
    (r.1 + 78002 ≤ r.2 ∨ r.2 = full.length)

/-- With the default sizes the degenerate forward-progress advance never fires:
the loop always advances to `break_point - CHUNK_OVERLAP`. -/
theorem next_pos_eq (pos bp : Nat) (h : pos + 78002 ≤ bp) :
    next_pos pos bp = bp - CHUNK_OVERLAP := by
  rw [next_pos, if_neg]
  rw [CHUNK_OVERLAP]
  omega

/-- Master invariant of the splitting loop: every emitted region satisfies
`RegionOK`, and across the emission order the region starts strictly increase
while the region ends are non-decreasing. -/
theorem region_loop_ok (full : List Char) :
    ∀ (fuel pos : Nat),
      (∀ r ∈ region_loop full pos fuel, RegionOK full pos r) ∧
      List.Pairwise (fun r r' : Nat × Nat => r.1 + 1 ≤ r'.1 ∧ r.2 ≤ r'.2)
        (region_loop full pos fuel) := by
  intro fuel
  induction fuel with
  | zero => intro pos; rw [region_loop]; simp
  | succ f ih =>
    intro pos
    rw [region_loop]
    simp only [Nat.succ_ne_zero, if_false, Nat.succ_sub_one]
    by_cases hpos : pos < full.length
    case neg => rw [if_neg hpos]; simp
    rw [if_pos hpos]
    by_cases hfin : full.length ≤ pos + MAX_CHUNK_SIZE
    · rw [if_pos hfin]
      split
      · simp
      · constructor
        · intro r hr
          simp only [List.mem_singleton] at hr
          subst hr
          exact ⟨le_rfl, hpos, le_rfl, hfin, Or.inr rfl⟩
        · simp
    · rw [if_neg hfin]
      have hlb := find_break_point_lb full pos
      have hub := find_break_point_le full pos (pos + MAX_CHUNK_SIZE) (by omega)
      have hnp := next_pos_eq pos (find_break_point full pos (pos + MAX_CHUNK_SIZE)) hlb
      rw [hnp]
      have hco : CHUNK_OVERLAP = 500 := rfl
      obtain ⟨ihf, ihp⟩ := ih (find_break_point full pos (pos + MAX_CHUNK_SIZE) - CHUNK_OVERLAP)
      have hlift : ∀ r ∈ region_loop full
          (find_break_point full pos (pos + MAX_CHUNK_SIZE) - CHUNK_OVERLAP) f,
          RegionOK full pos r := by
        intro r hr
        obtain ⟨h1, h2, h3, h4, h5⟩ := ihf r hr
        exact ⟨by omega, h2, h3, h4, h5⟩
      split
      · exact ⟨hlift, ihp⟩
      · constructor
        · intro r hr
          rcases List.mem_cons.mp hr with h | h
          · subst h
            exact ⟨le_rfl, by omega, by omega, hub, Or.inl hlb⟩
          · exact hlift r h
        · rw [List.pairwise_cons]
          refine ⟨?_, ihp⟩
          intro r' hr'
          obtain ⟨h1, h2, h3, h4, h5⟩ := ihf r' hr'
          constructor
          · omega
          · rcases h5 with h5 | h5
            · omega
            · omega

/-- The chunks the loop emits stand in one-to-one correspondence with the
emitted regions: the `source_pages` of the chunks are exactly
`_find_source_pages` applied to the regions. -/
theorem chunk_loop_map_sp (full : List Char) (bounds : List (Nat × Nat)) :
    ∀ (fuel pos idx : Nat),
      (chunk_loop full bounds pos idx fuel).map (·.source_pages) =
      (region_loop full pos fuel).map
        (fun r => find_source_pages r.1 r.2 bounds) := by
  intro fuel
  induction fuel with
  | zero => intro pos idx; rw [chunk_loop, region_loop]; simp
  | succ f ih =>
    intro pos idx
    rw [chunk_loop, region_loop]
    simp only [Nat.succ_ne_zero, if_false, Nat.succ_sub_one]
    by_cases hpos : pos < full.length
    case neg => rw [if_neg hpos, if_neg hpos]; simp
    rw [if_pos hpos, if_pos hpos]
    by_cases hfin : full.length ≤ pos + MAX_CHUNK_SIZE
    · rw [if_pos hfin, if_pos hfin]
      split <;> simp
    · rw [if_neg hfin, if_neg hfin]
      split
      · exact ih _ _
      · simp only [List.map_cons]
        rw [ih _ _]

/-- C3 (amended): every chunk's `source_pages` satisfies first ≤ last and, over
the emission order, the first pages are non-decreasing and the last pages are
non-decreasing (given the extraction invariant that the input pages carry
non-decreasing page numbers). -/
theorem chunk_source_pages_monotone (pages : List Page)
    (hmono : List.Pairwise (· ≤ ·) (pages.map (·.page_number))) :
    (∀ c ∈ chunk_pages pages, c.source_pages.1 ≤ c.source_pages.2) ∧
    List.Pairwise (fun a b : Chunk => a.source_pages.1 ≤ b.source_pages.1 ∧
      a.source_pages.2 ≤ b.source_pages.2) (chunk_pages pages) := by
  have hbpw : List.Pairwise (fun a b : Nat × Nat => a.2 ≤ b.2) (build_full pages).2 := by
    have hp : List.Pairwise (· ≤ ·) (((build_full pages).2).map (·.2)) := by
      rw [build_full_pages_map pages]
      exact hmono
    rwa [List.pairwise_map] at hp
  rw [chunk_pages]
  split
  · simp
  · split
    · rename_i hne hle
      constructor
      · intro c hc
        simp only [List.mem_singleton] at hc
        subst hc
        simp only
        match pages, hmono with
        | [], _ => exact le_rfl
        | p :: rest, hmono =>
          have hne2 : p :: rest ≠ [] := by simp
          have hmem : (p :: rest).getLast hne2 ∈ p :: rest := List.getLast_mem hne2
          have hlast : (p :: rest).getLastD blankPage = (p :: rest).getLast hne2 := by
            rw [List.getLastD_eq_getLast?, List.getLast?_eq_getLast _ hne2]
            rfl
          rw [List.headD_cons, hlast]
          rcases List.mem_cons.mp hmem with h | h
          · rw [h]
          · exact (List.pairwise_cons.mp hmono).1 _
              (List.mem_map_of_mem (·.page_number) h)
      · simp
    · rename_i hne hgt
      obtain ⟨hok, hpw⟩ := region_loop_ok (pyRstrip (build_full pages).1)
        ((pyRstrip (build_full pages).1).length + 1) 0
      constructor
      · intro c hc
        have hmem : c.source_pages ∈
            (chunk_loop (pyRstrip (build_full pages).1) (build_full pages).2 0 0
              ((pyRstrip (build_full pages).1).length + 1)).map (·.source_pages) :=
          List.mem_map_of_mem _ hc
        rw [chunk_loop_map_sp] at hmem
        obtain ⟨r, hr, hsp⟩ := List.mem_map.mp hmem
        rw [← hsp]
        exact find_source_pages_fst_le_snd r.1 r.2 (hok r hr).2.1 _ hbpw
      · have hmapped : List.Pairwise
            (fun a b : Nat × Nat => a.1 ≤ b.1 ∧ a.2 ≤ b.2)
            ((chunk_loop (pyRstrip (build_full pages).1) (build_full pages).2 0 0
              ((pyRstrip (build_full pages).1).length + 1)).map (·.source_pages)) := by
          rw [chunk_loop_map_sp, List.pairwise_map]
          refine hpw.imp_of_mem ?_
          intro r r' hr hr' hrel
          exact find_source_pages_mono r.1 r.2 r'.1 r'.2 (by omega) hrel.2 _ hbpw
        rw [List.pairwise_map] at hmapped
        exact hmapped

theorem take_prefix_take {α : Type} (l : List α) {m n : Nat} (h : m ≤ n) :
    l.take m <+: l.take n := by
  have heq : (l.take n).take m = l.take m := by
    rw [List.take_take, Nat.min_eq_left h]
  rw [← heq]
  exact List.take_prefix _ _

/-- C5: whenever the loop advanced by the overlap rule (the next region starts
exactly `CHUNK_OVERLAP` characters before the previous break point), the last
`CHUNK_OVERLAP` characters of the previous chunk's source region recur verbatim
as a prefix of the next chunk's source region, before trimming. -/
theorem chunk_overlap_spec (pages : List Page) :
    List.Chain' (fun r r' : Nat × Nat =>
      r'.1 = r.2 - CHUNK_OVERLAP →
        r.1 + CHUNK_OVERLAP ≤ r.2 ∧
        sliceL (doc_full pages) (r.2 - CHUNK_OVERLAP) r.2 <+:
          sliceL (doc_full pages) r'.1 r'.2) (chunk_regions pages) := by
  rw [chunk_regions]
  split
  · simp
  · split
    · simp
    · have hpw := (region_loop_ok (doc_full pages) ((doc_full pages).length + 1) 0).2
      refine List.Pairwise.chain' (hpw.imp ?_)
      intro r r' hrel hstart
      have hco : CHUNK_OVERLAP = 500 := rfl
      refine ⟨by omega, ?_⟩
      rw [hstart, sliceL, sliceL]
      exact take_prefix_take _ (by omega)

/-! ## Symbolic evaluation lemmas (used to run the chunker on a concrete
80200-character document without kernel-evaluating 80200-element lists) -/

theorem rfind_cons_ne (a : Char) (l : List Char) (h : a ≠ '\n') :
    rfindTwoNl (a :: l) = (· + 1) <$> rfindTwoNl l := by
  match l with
  | [] => rfl
  | b :: rest =>
    rw [rfindTwoNl]
    cases hin : rfindTwoNl (b :: rest) with
    | some j => simp
    | none => simp [h]

theorem rfind_cons_cons_ne (a b : Char) (l : List Char) (h : b ≠ '\n') :
    rfindTwoNl (a :: b :: l) = (· + 1) <$> rfindTwoNl (b :: l) := by
  rw [rfindTwoNl]
  cases hin : rfindTwoNl (b :: l) with
  | some j => simp
  | none => simp [h]

theorem rfind_cons_some (a b : Char) (l : List Char) (j : Nat)
    (h : rfindTwoNl (b :: l) = some j) :
    rfindTwoNl (a :: b :: l) = some (j + 1) := by
  rw [rfindTwoNl, h]

theorem rfind_nlnl_of_none (l : List Char) (h : rfindTwoNl ('\n' :: l) = none) :
    rfindTwoNl ('\n' :: '\n' :: l) = some 0 := by
  rw [rfindTwoNl]
  cases hin : rfindTwoNl ('\n' :: l) with
  | some j =>
    rw [hin] at h
    exact absurd h (by simp)
  | none => simp

theorem rfind_rep_front (n : Nat) (l : List Char) :
    rfindTwoNl (List.replicate n 'a' ++ l) = (· + n) <$> rfindTwoNl l := by
  induction n with
  | zero => simp [Option.map_id']
  | succ m ih =>
    rw [List.replicate_succ, List.cons_append, rfind_cons_ne 'a' _ (by decide), ih]
    cases rfindTwoNl l <;> simp <;> omega

theorem rfind_rep_none (n : Nat) : rfindTwoNl (List.replicate n 'a') = none := by
  have := rfind_rep_front n []
  simpa [rfindTwoNl] using this

theorem pyStrip_eq_nil_iff (l : List Char) :
    pyStrip l = [] ↔ ∀ c ∈ l, isPyWs c = true := by
  unfold pyStrip
  rw [List.reverse_eq_nil_iff, List.dropWhile_eq_nil_iff]
  constructor
  · intro h c hc
    rw [← List.takeWhile_append_dropWhile (p := isPyWs) (l := l)] at hc
    rcases List.mem_append.mp hc with h1 | h1
    · exact List.mem_takeWhile_imp h1
    · exact h c (List.mem_reverse.mpr h1)
  · intro h c hc
    exact h c ((List.dropWhile_sublist _).subset (List.mem_reverse.mp hc))

theorem pyRstrip_append_ws (l : List Char) (c : Char) (hc : isPyWs c = true) :
    pyRstrip (l ++ [c]) = pyRstrip l := by
  unfold pyRstrip
  rw [List.reverse_append]
  simp [List.dropWhile_cons, hc]

theorem pyRstrip_append_nonws (l : List Char) (c : Char) (hc : isPyWs c = false) :
    pyRstrip (l ++ [c]) = l ++ [c] := by
  unfold pyRstrip
  rw [List.reverse_append]
  simp [List.dropWhile_cons, hc]

/-! ## A concrete document refuting "last page of chunk i ≤ first page of
chunk i+1": page 3 starts inside the 500-character overlap window of the
first break point. -/

/-- Two newlines (the page separator and the paragraph break). -/
def nl2 : List Char := ['\n', '\n']

/-- Page 3's cleaned text: 198 characters, a paragraph break, 300 characters. -/
def cexTail : List Char := List.replicate 198 'a' ++ (nl2 ++ List.replicate 300 'a')

/-- Three cleaned pages: 79098 + 598 + 500 characters of text. -/
def cexPages : List Page :=
  [{ page_number := 1, raw_text := [], has_images := false,
     cleaned_text := List.replicate 79098 'a' },
   { page_number := 2, raw_text := [], has_images := false,
     cleaned_text := List.replicate 598 'a' },
   { page_number := 3, raw_text := [], has_images := false,
     cleaned_text := cexTail }]

/-- The concatenated document: 80200 characters; page 2 starts at offset 79100,
page 3 at offset 79700, and the last paragraph break of the window
`[78000, 80000)` ends at offset 79900. -/
def cexFull : List Char :=
  List.replicate 79098 'a' ++ (nl2 ++ (List.replicate 598 'a' ++ (nl2 ++ cexTail)))

def cexBounds : List (Nat × Nat) := [(0, 1), (79100, 2), (79700, 3)]

theorem build_full_cex : build_full cexPages = (cexFull ++ nl2, cexBounds) := by
  have hL1 : (List.replicate 79098 'a' ++ ['\n', '\n'] : List Char).length = 79100 := by
    rw [List.length_append, List.length_replicate]; rfl
  have hL2 : (List.replicate 79098 'a' ++ ['\n', '\n'] ++ List.replicate 598 'a' ++
      ['\n', '\n'] : List Char).length = 79700 := by
    rw [List.length_append, List.length_append, hL1, List.length_replicate]; rfl
  rw [build_full]
  unfold cexPages
  rw [List.foldl_cons, List.foldl_cons, List.foldl_cons, List.foldl_nil]
  simp only [List.nil_append, List.length_nil]
  rw [hL1, hL2]
  unfold cexFull cexBounds cexTail nl2
  simp only [List.append_assoc, List.cons_append, List.nil_append]

theorem cexFull_length : cexFull.length = 80200 := by
  rw [cexFull, cexTail, nl2]
  simp only [List.length_append, List.length_replicate]
  rfl

theorem pyRstrip_append_rep (l : List Char) (n : Nat) (hn : n ≠ 0) (c : Char)
    (hc : isPyWs c = false) :
    pyRstrip (l ++ List.replicate n c) = l ++ List.replicate n c := by
  obtain ⟨m, rfl⟩ : ∃ m, n = m + 1 := ⟨n - 1, by omega⟩
  rw [List.replicate_succ', ← List.append_assoc, pyRstrip_append_nonws _ _ hc,
    List.append_assoc]

theorem doc_full_cex : doc_full cexPages = cexFull := by
  rw [doc_full, build_full_cex]
  have h1 : cexFull ++ nl2 = (cexFull ++ ['\n']) ++ ['\n'] := by
    simp [nl2]
  rw [h1, pyRstrip_append_ws _ _ (by decide), pyRstrip_append_ws _ _ (by decide)]
  have h2 : cexFull =
      (List.replicate 79098 'a' ++ (nl2 ++ (List.replicate 598 'a' ++
        (nl2 ++ (List.replicate 198 'a' ++ nl2))))) ++ List.replicate 300 'a' := by
    simp only [cexFull, cexTail, List.append_assoc]
  rw [h2, pyRstrip_append_rep _ 300 (by norm_num) 'a' (by decide)]

/-- The 2000-character break-point search window `[78000, 80000)` of the first
iteration. -/
def cexRegion : List Char :=
  List.replicate 1098 'a' ++ (nl2 ++ (List.replicate 598 'a' ++ (nl2 ++
    (List.replicate 198 'a' ++ (nl2 ++ List.replicate 100 'a')))))

theorem cexRegion_length : cexRegion.length = 2000 := by
  rw [cexRegion, nl2]
  simp only [List.length_append, List.length_replicate]
  rfl

theorem cex_rfind : rfindTwoNl cexRegion = some 1898 := by
  have e100 : List.replicate 100 'a' = 'a' :: List.replicate 99 'a' := rfl
  have c100 : rfindTwoNl (List.replicate 100 'a') = none := rfind_rep_none 100
  have h1 : rfindTwoNl ('\n' :: List.replicate 100 'a') = none := by
    rw [e100, rfind_cons_cons_ne _ _ _ (by decide), ← e100, c100]
    rfl
  have h2 : rfindTwoNl ('\n' :: '\n' :: List.replicate 100 'a') = some 0 :=
    rfind_nlnl_of_none _ h1
  have h3 : rfindTwoNl (List.replicate 198 'a' ++
      ('\n' :: '\n' :: List.replicate 100 'a')) = some 198 := by
    rw [rfind_rep_front, h2]
    rfl
  have e3 : List.replicate 198 'a' ++ ('\n' :: '\n' :: List.replicate 100 'a') =
      'a' :: (List.replicate 197 'a' ++ ('\n' :: '\n' :: List.replicate 100 'a')) := rfl
  have h4 : rfindTwoNl ('\n' :: (List.replicate 198 'a' ++
      ('\n' :: '\n' :: List.replicate 100 'a'))) = some 199 := by
    rw [e3, rfind_cons_cons_ne _ _ _ (by decide), ← e3, h3]
    rfl
  have h5 : rfindTwoNl ('\n' :: '\n' :: (List.replicate 198 'a' ++
      ('\n' :: '\n' :: List.replicate 100 'a'))) = some 200 :=
    rfind_cons_some _ _ _ _ h4
  have h6 : rfindTwoNl (List.replicate 598 'a' ++ ('\n' :: '\n' ::
      (List.replicate 198 'a' ++ ('\n' :: '\n' :: List.replicate 100 'a')))) =
      some 798 := by
    rw [rfind_rep_front, h5]
    rfl
  have e6 : List.replicate 598 'a' ++ ('\n' :: '\n' :: (List.replicate 198 'a' ++
      ('\n' :: '\n' :: List.replicate 100 'a'))) =
      'a' :: (List.replicate 597 'a' ++ ('\n' :: '\n' :: (List.replicate 198 'a' ++
        ('\n' :: '\n' :: List.replicate 100 'a')))) := rfl
  have h7 : rfindTwoNl ('\n' :: (List.replicate 598 'a' ++ ('\n' :: '\n' ::
      (List.replicate 198 'a' ++ ('\n' :: '\n' :: List.replicate 100 'a'))))) =
      some 799 := by
    rw [e6, rfind_cons_cons_ne _ _ _ (by decide), ← e6, h6]
    rfl
  have h8 : rfindTwoNl ('\n' :: '\n' :: (List.replicate 598 'a' ++ ('\n' :: '\n' ::
      (List.replicate 198 'a' ++ ('\n' :: '\n' :: List.replicate 100 'a'))))) =
      some 800 :=
    rfind_cons_some _ _ _ _ h7
  have hfold : cexRegion = List.replicate 1098 'a' ++ ('\n' :: '\n' ::
      (List.replicate 598 'a' ++ ('\n' :: '\n' :: (List.replicate 198 'a' ++
        ('\n' :: '\n' :: List.replicate 100 'a'))))) := rfl
  rw [hfold, rfind_rep_front, h8]
  rfl

theorem cex_split78000 : cexFull =
    List.replicate 78000 'a' ++ (cexRegion ++ List.replicate 200 'a') := by
  rw [cexFull, cexTail, cexRegion]
  rw [show List.replicate 79098 'a' = List.replicate 78000 'a' ++ List.replicate 1098 'a' by
    rw [← List.replicate_add]]
  rw [show List.replicate 300 'a' = List.replicate 100 'a' ++ List.replicate 200 'a' by
    rw [← List.replicate_add]]
  simp only [List.append_assoc]

theorem cex_region_eq : sliceL cexFull 78000 80000 = cexRegion := by
  rw [sliceL, cex_split78000]
  rw [List.drop_left' (by rw [List.length_replicate])]
  rw [show (80000 - 78000 : Nat) = 2000 from rfl]
  exact List.take_left' cexRegion_length

/-- When the window contains a paragraph break, the break point is just after
the last one. -/
theorem find_break_point_of_para (text : List Char) (start e i : Nat)
    (h : rfindTwoNl (sliceL text (max start (e - 2000)) e) = some i) :
    find_break_point text start e = max start (e - 2000) + i + 2 := by
  rw [find_break_point]
  simp only [h]

theorem cex_fbp : find_break_point cexFull 0 80000 = 79900 := by
  have hmax : max 0 (80000 - 2000) = 78000 := by norm_num
  have hreg : sliceL cexFull (max 0 (80000 - 2000)) 80000 = cexRegion := by
    rw [hmax]
    exact cex_region_eq
  rw [find_break_point_of_para cexFull 0 80000 1898 (by rw [hreg, cex_rfind]), hmax]

theorem cex_strip1_ne : pyStrip (sliceL cexFull 0 79900) ≠ [] := by
  rw [Ne, pyStrip_eq_nil_iff]
  intro hall
  have h79098 : (List.replicate 79098 'a' : List Char).length ≤ 79900 := by
    rw [List.length_replicate]
    norm_num
  have ha : 'a' ∈ sliceL cexFull 0 79900 := by
    rw [sliceL, List.drop_zero, cexFull, List.take_append_eq_append_take,
      List.take_of_length_le h79098]
    exact List.mem_append_left _ (List.mem_replicate.mpr ⟨by norm_num, rfl⟩)
  exact absurd (hall 'a' ha) (by decide)

theorem cex_split79400 : cexFull =
    (List.replicate 79098 'a' ++ (nl2 ++ List.replicate 300 'a')) ++
      (List.replicate 298 'a' ++ (nl2 ++ cexTail)) := by
  rw [cexFull]
  rw [show List.replicate 598 'a' = List.replicate 300 'a' ++ List.replicate 298 'a' by
    rw [← List.replicate_add]]
  simp only [List.append_assoc]

theorem cex_strip2_ne : pyStrip (sliceL cexFull 79400 80200) ≠ [] := by
  rw [Ne, pyStrip_eq_nil_iff]
  intro hall
  have hlen1 : ((List.replicate 79098 'a' ++ (nl2 ++ List.replicate 300 'a')) :
      List Char).length = 79400 := by
    rw [nl2]
    simp only [List.length_append, List.length_replicate]
    rfl
  have hlen2 : ((List.replicate 298 'a' ++ (nl2 ++ cexTail)) : List Char).length = 800 := by
    rw [nl2, cexTail, nl2]
    simp only [List.length_append, List.length_replicate]
    rfl
  have ha : 'a' ∈ sliceL cexFull 79400 80200 := by
    rw [sliceL, cex_split79400]
    rw [List.drop_left' hlen1]
    rw [show (80200 - 79400 : Nat) = 800 from rfl]
    rw [List.take_of_length_le (le_of_eq hlen2)]
    exact List.mem_append_left _ (List.mem_replicate.mpr ⟨by norm_num, rfl⟩)
  exact absurd (hall 'a' ha) (by decide)

/-- Running the chunker on the counterexample document: two chunks, the first
sourced from pages 1-3 (its break point 79900 lies past page 3's start 79700),
the second from pages 2-3 (it starts at 79400, inside page 2). -/
theorem cex_chunks_sp :
    (chunk_pages cexPages).map (fun c => c.source_pages) = [(1, 3), (2, 3)] := by
  have hfull : pyRstrip (build_full cexPages).1 = cexFull := doc_full_cex
  have hbounds : (build_full cexPages).2 = cexBounds := by rw [build_full_cex]
  have hne0 : ¬ (cexFull = []) := by
    intro h
    have := cexFull_length
    rw [h] at this
    simp at this
  have hnp1 : next_pos 0 79900 = 79400 := by
    rw [next_pos, CHUNK_OVERLAP]
    norm_num
  have hfsp1 : find_source_pages 0 79900 cexBounds = (1, 3) := by decide
  have hfsp2 : find_source_pages 79400 80200 cexBounds = (2, 3) := by decide
  rw [chunk_pages]
  simp only [hfull, hbounds, cexFull_length]
  rw [if_neg hne0, if_neg (by rw [MAX_CHUNK_SIZE]; norm_num)]
  rw [chunk_loop]
  rw [if_neg (by norm_num : ¬(80200 + 1 = 0))]
  simp only [cexFull_length]
  rw [if_pos (by norm_num : (0 : Nat) < 80200)]
  rw [if_neg (by rw [MAX_CHUNK_SIZE]; norm_num : ¬(80200 ≤ 0 + MAX_CHUNK_SIZE))]
  rw [show (0 + MAX_CHUNK_SIZE : Nat) = 80000 by rw [MAX_CHUNK_SIZE]]
  rw [cex_fbp]
  rw [if_neg cex_strip1_ne]
  rw [hnp1]
  rw [show (80200 + 1 - 1 : Nat) = 80200 from rfl]
  rw [chunk_loop]
  rw [if_neg (by norm_num : ¬(80200 = 0))]
  simp only [cexFull_length]
  rw [if_pos (by norm_num : (79400 : Nat) < 80200)]
  rw [if_pos (by rw [MAX_CHUNK_SIZE]; norm_num : (80200 : Nat) ≤ 79400 + MAX_CHUNK_SIZE)]
  rw [if_neg cex_strip2_ne]
  simp only [List.map_cons, List.map_nil]
  rw [hfsp1, hfsp2]

/-- C3, counterexample: the document `cexPages` carries non-decreasing page
numbers, yet the chunker emits source ranges `[(1,3), (2,3)]`: chunk 0's last
source page (3) exceeds chunk 1's first source page (2), refuting "chunk i's
last source page ≤ chunk i+1's first source page" for consecutive chunks. -/
theorem chunk_source_pages_monotone_cex :
    List.Pairwise (· ≤ ·) (cexPages.map (·.page_number)) ∧
    ¬ List.Chain' (fun x y : Nat × Nat => x.2 ≤ y.1)
      ((chunk_pages cexPages).map (fun c => c.source_pages)) := by
  constructor
  · rw [show cexPages.map (·.page_number) = [1, 2, 3] from rfl]
    decide
  · rw [cex_chunks_sp]
    intro hch
    exact absurd (List.chain'_cons.mp hch).1 (by simp)

/-- A one-page sample document for the C3 witness. -/
def samplePage : Page :=
  { page_number := 1, raw_text := [], has_images := false,
    cleaned_text := ['S', 'h', 'o', 'r', 't'] }

/-- Witness for the amended C3 at the one-page document `[samplePage]`. -/
theorem chunk_source_pages_monotone_witness :
    (∀ c ∈ chunk_pages [samplePage], c.source_pages.1 ≤ c.source_pages.2) ∧
    List.Pairwise (fun a b : Chunk => a.source_pages.1 ≤ b.source_pages.1 ∧
      a.source_pages.2 ≤ b.source_pages.2) (chunk_pages [samplePage]) :=
  chunk_source_pages_monotone [samplePage] (by decide)

/-! ## A small regex engine (Python `re` semantics: leftmost match, greedy
backtracking, MULTILINE anchors, word boundaries) for `CLEANING_PATTERNS` -/

/-- Regular-expression syntax used by the cleaning patterns.  `cls` is a
single-character class, `star`/`opt` are greedy, `bol`/`eol` are the MULTILINE
`^`/`$`, `wordB` is `\b`. -/
inductive RE where
  | eps
  | cls (p : Char → Bool)
  | cat (a b : RE)
  | alt (a b : RE)
  | star (a : RE)
  | opt (a : RE)
  | bol
  | eol
  | wordB

/-- Python `\w` (ASCII letters, digits, underscore, plus the Latn-1/Latin
Extended letters, the range the cleaning patterns can meet). -/
def isWordChar (c : Char) : Bool :=
  c.isAlphanum || c = '_' ||
    (0xC0 ≤ c.val && c.val ≤ 0x24F && c.val ≠ 0xD7 && c.val ≠ 0xF7)

def isWordAt (input : List Char) (i : Nat) : Bool :=
  match input.get? i with
  | some c => isWordChar c
  | none => false

/-- One layer of the backtracking matcher: structural recursion on the regex,
with `rec` the full matcher at the next-lower star fuel (used by `star`). -/
def reStep (input : List Char) (rec : RE → Nat → (Nat → Option Nat) → Option Nat) :
    RE → Nat → (Nat → Option Nat) → Option Nat
  | .eps, pos, k => k pos
  | .cls p, pos, k =>
    match input.get? pos with
    | some c => if p c then k (pos + 1) else none
    | none => none
  | .cat a b, pos, k =>
    reStep input rec a pos (fun q => reStep input rec b q k)
  | .alt a b, pos, k =>
    (reStep input rec a pos k) <|> (reStep input rec b pos k)
  | .opt a, pos, k => (reStep input rec a pos k) <|> k pos
  | .star a, pos, k =>
    (rec a pos (fun q => if pos < q then rec (.star a) q k else none)) <|> k pos
  | .bol, pos, k =>
    if pos = 0 then k pos
    else if input.get? (pos - 1) = some '\n' then k pos else none
  | .eol, pos, k =>
    if pos = input.length then k pos
    else if input.get? pos = some '\n' then k pos else none
  | .wordB, pos, k =>
    if (decide (pos ≠ 0) && isWordAt input (pos - 1)) ≠ isWordAt input pos then k pos
    else none

/-- Backtracking matcher in continuation-passing style, returning the first
success in Python's preference order (greedy repetition first, left
alternative first).  `fuel` bounds the star unrollings; every unrolling consumes
at least one character, so `input.length + 1` always suffices. -/
def reMatch (input : List Char) : Nat → RE → Nat → (Nat → Option Nat) → Option Nat
  | 0 => reStep input (fun _ _ _ => none)
  | fuel + 1 => reStep input (reMatch input fuel)

/-- The end position of the match the engine prefers at `pos`, if any. -/
def matchEndAt (r : RE) (input : List Char) (pos : Nat) : Option Nat :=
  reMatch input (input.length + 1) r pos (fun e => some e)

/-- `re.sub(pattern, repl, input)` scanning from `pos`: on a (non-empty) match
emit the replacement and resume at the match end, otherwise copy one character.
All cleaning patterns match at least one character, so a defensive guard treats
a non-advancing match as no match. -/
def reSubGo (r : RE) (repl input : List Char) : Nat → Nat → List Char
  | _, 0 => []
  | pos, fuel + 1 =>
    if pos < input.length then
      match matchEndAt r input pos with
      | some e =>
        if pos < e then repl ++ reSubGo r repl input e fuel
        else input.getD pos ' ' :: reSubGo r repl input (pos + 1) fuel
      | none => input.getD pos ' ' :: reSubGo r repl input (pos + 1) fuel
    else []

/-- `pattern.sub(repl, input)`. -/
def pySub (r : RE) (repl input : List Char) : List Char :=
  reSubGo r repl input 0 (input.length + 1)

/-! ### The eight cleaning patterns of `PdfProcessor.CLEANING_PATTERNS` -/

def lit1 (c : Char) : RE := .cls (fun x => x = c)

def litL (s : List Char) : RE := s.foldr (fun c acc => .cat (lit1 c) acc) .eps

/-- Case folding for IGNORECASE matching (ASCII and Latin-1 letters). -/
def caseFold (c : Char) : Char :=
  if 'A' ≤ c ∧ c ≤ 'Z' then Char.ofNat (c.val.toNat + 32)
  else if 0xC0 ≤ c.val ∧ c.val ≤ 0xDE ∧ c.val ≠ 0xD7 then Char.ofNat (c.val.toNat + 32)
  else c

def lit1CI (c : Char) : RE := .cls (fun x => caseFold x = caseFold c)

def litCI (s : List Char) : RE := s.foldr (fun c acc => .cat (lit1CI c) acc) .eps

/-- `r{n}`: n required copies. -/
def reReq : Nat → RE → RE
  | 0, _ => .eps
  | n + 1, r => .cat r (reReq n r)

/-- `r{0,n}`, greedy. -/
def reOptRep : Nat → RE → RE
  | 0, _ => .eps
  | n + 1, r => .opt (.cat r (reOptRep n r))

def plusR (r : RE) : RE := .cat r (.star r)

def wsC : RE := .cls isPyWs

def digitC : RE := .cls (fun c => c.isDigit)

def upperAZ : RE := .cls (fun c => 'A' ≤ c && c ≤ 'Z')

/-- The dash class `[-–—]`. -/
def dashC : RE := .cls (fun c => c = '-' || c.val = 0x2013 || c.val = 0x2014)

def sepC : RE := .cls (fun c => c = '=' || c = '_' || c = '-')

/-- `.` without DOTALL: anything but a newline. -/
def dotC : RE := .cls (fun c => c ≠ '\n')

/-- Pattern 1: Bates stamps `\b[A-Z]{2,10}[-\s]\d{6,10}\b`. -/
def pattern1 : RE :=
  .cat .wordB (.cat (.cat (reReq 2 upperAZ) (reOptRep 8 upperAZ))
    (.cat (.cls (fun c => c = '-' || isPyWs c))
      (.cat (.cat (reReq 6 digitC) (reOptRep 4 digitC)) .wordB)))

/-- `(?:[Pp]age\s+)`. -/
def pageGroup : RE :=
  .cat (.cls (fun c => c = 'P' || c = 'p'))
    (.cat (litL ['a', 'g', 'e']) (plusR wsC))

/-- `(?:\s+(?:of|de|sur)\s+\d{1,5})`. -/
def ofGroup : RE :=
  .cat (plusR wsC)
    (.cat (.alt (litL ['o', 'f']) (.alt (litL ['d', 'e']) (litL ['s', 'u', 'r'])))
      (.cat (plusR wsC) (.cat (reReq 1 digitC) (reOptRep 4 digitC))))

/-- Pattern 2 (MULTILINE): standalone page-number lines
`^\s*[-–—]?\s*(?:[Pp]age\s+)?\d{1,5}(?:\s+(?:of|de|sur)\s+\d{1,5})?\s*[-–—]?\s*$`. -/
def pattern2 : RE :=
  .cat .bol (.cat (.star wsC) (.cat (.opt dashC) (.cat (.star wsC)
    (.cat (.opt pageGroup) (.cat (.cat (reReq 1 digitC) (reOptRep 4 digitC))
      (.cat (.opt ofGroup) (.cat (.star wsC) (.cat (.opt dashC)
        (.cat (.star wsC) .eol)))))))))

/-- Pattern 3 (MULTILINE, IGNORECASE): English confidentiality footers. -/
def pattern3 : RE :=
  .alt
    (.cat .bol (.cat (.star wsC)
      (.cat (.opt (.cat (litCI ['P', 'R', 'I', 'V', 'I', 'L', 'E', 'G', 'E', 'D'])
          (.cat (plusR wsC) (.cat (litCI ['A', 'N', 'D']) (plusR wsC)))))
        (.cat (litCI ['C', 'O', 'N', 'F', 'I', 'D', 'E', 'N', 'T', 'I', 'A', 'L'])
          (.cat (.opt (.cat (.star wsC) (.cat dashC (.cat (.star wsC) (.star dotC)))))
            .eol)))))
    (.alt
      (.cat .bol (.cat (.star wsC)
        (.cat (litCI ['A', 'T', 'T', 'O', 'R', 'N', 'E', 'Y'])
          (.cat (.cls (fun c => isPyWs c || c = '-'))
            (.cat (litCI ['C', 'L', 'I', 'E', 'N', 'T'])
              (.cat (plusR wsC)
                (.cat (litCI ['P', 'R', 'I', 'V', 'I', 'L', 'E', 'G', 'E'])
                  (.cat (.opt (lit1CI 'D')) (.cat (.star wsC) .eol)))))))))
      (.alt
        (.cat .bol (.cat (.star wsC)
          (.cat (litCI ['A', 'T', 'T', 'O', 'R', 'N', 'E', 'Y'])
            (.cat (plusR wsC)
              (.cat (litCI ['W', 'O', 'R', 'K'])
                (.cat (plusR wsC)
                  (.cat (litCI ['P', 'R', 'O', 'D', 'U', 'C', 'T'])
                    (.cat (.star wsC) .eol))))))))
        (.alt
          (.cat .bol (.cat (.star wsC)
            (.cat (litCI ['D', 'O'])
              (.cat (plusR wsC)
                (.cat (litCI ['N', 'O', 'T'])
                  (.cat (plusR wsC)
                    (.cat (litCI ['D', 'I', 'S', 'T', 'R', 'I', 'B', 'U', 'T', 'E'])
                      (.cat (.star wsC) .eol))))))))
          (.cat .bol (.cat (.star wsC)
            (.cat (litCI ['F', 'O', 'R'])
              (.cat (plusR wsC)
                (.cat (litCI ['S', 'E', 'T', 'T', 'L', 'E', 'M', 'E', 'N', 'T'])
                  (.cat (plusR wsC)
                    (.cat (litCI ['P', 'U', 'R', 'P', 'O', 'S', 'E', 'S'])
                      (.cat (plusR wsC)
                        (.cat (litCI ['O', 'N', 'L', 'Y'])
                          (.cat (.star wsC) .eol)))))))))))))

/-- The class `[EÉ]` under IGNORECASE. -/
def eAcuteC : RE := .cls (fun c => caseFold c = 'e' || caseFold c = 'é')

/-- Pattern 4 (MULTILINE, IGNORECASE): French confidentiality footers. -/
def pattern4 : RE :=
  .alt
    (.cat .bol (.cat (.star wsC)
      (.cat (litCI ['C', 'O', 'N', 'F', 'I', 'D', 'E', 'N', 'T', 'I', 'E', 'L'])
        (.cat (.opt (litCI ['L', 'E'])) (.cat (.star wsC) .eol)))))
    (.alt
      (.cat .bol (.cat (.star wsC)
        (.cat (litCI ['P', 'R', 'O', 'T']) (.cat eAcuteC
          (.cat (lit1CI 'G') (.cat (.opt eAcuteC)
            (.cat (plusR wsC) (.cat (litCI ['P', 'A', 'R'])
              (.cat (plusR wsC) (.cat (litCI ['L', 'E'])
                (.cat (plusR wsC)
                  (.cat (litCI ['S', 'E', 'C', 'R', 'E', 'T'])
                    (.cat (plusR wsC)
                      (.cat (litCI ['P', 'R', 'O', 'F', 'E', 'S', 'S', 'I', 'O',
                          'N', 'N', 'E', 'L'])
                        (.cat (.star wsC) .eol)))))))))))))))
      (.cat .bol (.cat (.star wsC)
        (.cat (litCI ['N', 'E'])
          (.cat (plusR wsC)
            (.cat (litCI ['P', 'A', 'S'])
              (.cat (plusR wsC)
                (.cat (litCI ['D', 'I', 'S', 'T', 'R', 'I', 'B', 'U', 'E', 'R'])
                  (.cat (.star wsC) .eol)))))))))

/-- Pattern 5 (MULTILINE): separator lines `^\s*[=_\-]{3,}\s*$`. -/
def pattern5 : RE :=
  .cat .bol (.cat (.star wsC)
    (.cat (.cat (reReq 3 sepC) (.star sepC)) (.cat (.star wsC) .eol)))

/-- Pattern 6: form feeds `\f`. -/
def pattern6 : RE := .cls (fun c => c.val = 12)

/-- Pattern 7: `\n{3,}`, replaced by two newlines. -/
def pattern7 : RE := .cat (reReq 3 (lit1 '\n')) (.star (lit1 '\n'))

/-- Pattern 8 (MULTILINE): trailing blanks `[ \t]+$`. -/
def pattern8 : RE := .cat (plusR (.cls (fun c => c = ' ' || c = '\t'))) .eol

/-- `PdfProcessor.CLEANING_PATTERNS`: the ordered (pattern, replacement) list. -/
def CLEANING_PATTERNS : List (RE × List Char) :=
  [(pattern1, []), (pattern2, []), (pattern3, []), (pattern4, []),
   (pattern5, []), (pattern6, []), (pattern7, ['\n', '\n']), (pattern8, [])]

/-- `PdfProcessor._clean_text`: empty in, empty out; otherwise apply the eight
substitutions in order and strip the result. -/
def clean_text (text : List Char) : List Char :=
  if text = [] then []
  else pyStrip (CLEANING_PATTERNS.foldl (fun t pr => pySub pr.1 pr.2 t) text)


/-! ## C2: the cleaner is not idempotent -/

/-- A three-blank-line input.  Pattern 8 turns each `" \n"` into `"\n"`, after
pattern 7 (which saw no three consecutive newlines) has already run; a second
cleaning pass then collapses the newly created `"\n\n\n"` to `"\n\n"`. -/
def idemCex : List Char := ['a', ' ', '\n', ' ', '\n', ' ', '\n', 'b']

/-- C2: the text cleaner is NOT idempotent.  On `"a \n \n \nb"` one pass yields
`"a\n\n\nb"` but a second pass yields `"a\n\nb"`: the trailing-whitespace
substitution (pattern 8) runs after the newline-collapsing substitution
(pattern 7), so blank lines that only become empty in the current pass feed
pattern 7 only on the next pass. -/
theorem clean_text_not_idempotent :
    clean_text idemCex = ['a', '\n', '\n', '\n', 'b'] ∧
    clean_text (clean_text idemCex) = ['a', '\n', '\n', 'b'] ∧
    clean_text (clean_text idemCex) ≠ clean_text idemCex := by decide

end CaseLens

namespace CaseLens

/-! ### Unfolding equations for `reMatch` -/

theorem reMatch_eps (input : List Char) (fuel pos : Nat) (k : Nat → Option Nat) :
    reMatch input fuel .eps pos k = k pos := by cases fuel <;> rfl

theorem reMatch_cls (input : List Char) (fuel : Nat) (p : Char → Bool) (pos : Nat)
    (k : Nat → Option Nat) :
    reMatch input fuel (.cls p) pos k =
      (match input.get? pos with
       | some c => if p c then k (pos + 1) else none
       | none => none) := by cases fuel <;> rfl

theorem reMatch_cat (input : List Char) (fuel : Nat) (a b : RE) (pos : Nat)
    (k : Nat → Option Nat) :
    reMatch input fuel (.cat a b) pos k
      = reMatch input fuel a pos (fun q => reMatch input fuel b q k) := by
  cases fuel <;> rfl

theorem reMatch_alt (input : List Char) (fuel : Nat) (a b : RE) (pos : Nat)
    (k : Nat → Option Nat) :
    reMatch input fuel (.alt a b) pos k
      = (reMatch input fuel a pos k <|> reMatch input fuel b pos k) := by
  cases fuel <;> rfl

theorem reMatch_opt (input : List Char) (fuel : Nat) (a : RE) (pos : Nat)
    (k : Nat → Option Nat) :
    reMatch input fuel (.opt a) pos k = (reMatch input fuel a pos k <|> k pos) := by
  cases fuel <;> rfl

theorem reMatch_star_succ (input : List Char) (fuel : Nat) (a : RE) (pos : Nat)
    (k : Nat → Option Nat) :
    reMatch input (fuel + 1) (.star a) pos k
      = (reMatch input fuel a pos
          (fun q => if pos < q then reMatch input fuel (.star a) q k else none) <|>
         k pos) := rfl

theorem reMatch_bol (input : List Char) (fuel pos : Nat) (k : Nat → Option Nat) :
    reMatch input fuel .bol pos k =
      (if pos = 0 then k pos
       else if input.get? (pos - 1) = some '\n' then k pos else none) := by
  cases fuel <;> rfl

theorem reMatch_eol (input : List Char) (fuel pos : Nat) (k : Nat → Option Nat) :
    reMatch input fuel .eol pos k =
      (if pos = input.length then k pos
       else if input.get? pos = some '\n' then k pos else none) := by
  cases fuel <;> rfl

theorem reMatch_wordB (input : List Char) (fuel pos : Nat) (k : Nat → Option Nat) :
    reMatch input fuel .wordB pos k =
      (if (decide (pos ≠ 0) && isWordAt input (pos - 1)) ≠ isWordAt input pos then k pos
       else none) := by cases fuel <;> rfl

/-! ### One-step success and failure lemmas -/

theorem reMatch_cls_some {input : List Char} {fuel : Nat} {p : Char → Bool} {pos : Nat}
    {k : Nat → Option Nat} {c : Char} {r : Nat}
    (hg : input.get? pos = some c) (hp : p c = true) (hk : k (pos + 1) = some r) :
    reMatch input fuel (.cls p) pos k = some r := by
  rw [reMatch_cls, hg]; simp [hp, hk]

theorem reMatch_cls_none_end {input : List Char} {fuel : Nat} {p : Char → Bool} {pos : Nat}
    {k : Nat → Option Nat} (hg : input.get? pos = none) :
    reMatch input fuel (.cls p) pos k = none := by
  rw [reMatch_cls, hg]

theorem reMatch_cls_none_false {input : List Char} {fuel : Nat} {p : Char → Bool} {pos : Nat}
    {k : Nat → Option Nat} {c : Char}
    (hg : input.get? pos = some c) (hp : p c = false) :
    reMatch input fuel (.cls p) pos k = none := by
  rw [reMatch_cls, hg]; simp [hp]

theorem reMatch_eps_some {input : List Char} {fuel pos : Nat} {k : Nat → Option Nat} {r : Nat}
    (hk : k pos = some r) : reMatch input fuel .eps pos k = some r := by
  rw [reMatch_eps, hk]

theorem reMatch_opt_take {input : List Char} {fuel : Nat} {a : RE} {pos : Nat}
    {k : Nat → Option Nat} {r : Nat}
    (h : reMatch input fuel a pos k = some r) :
    reMatch input fuel (.opt a) pos k = some r := by
  rw [reMatch_opt, h]; rfl

theorem reMatch_opt_skip {input : List Char} {fuel : Nat} {a : RE} {pos : Nat}
    {k : Nat → Option Nat} {r : Nat}
    (h : reMatch input fuel a pos k = none) (hk : k pos = some r) :
    reMatch input fuel (.opt a) pos k = some r := by
  rw [reMatch_opt, h, hk]; rfl

theorem reMatch_cat_some {input : List Char} {fuel : Nat} {a b : RE} {pos : Nat}
    {k : Nat → Option Nat} {r : Nat}
    (h : reMatch input fuel a pos (fun q => reMatch input fuel b q k) = some r) :
    reMatch input fuel (.cat a b) pos k = some r := by
  rw [reMatch_cat]; exact h

theorem reMatch_cat_none {input : List Char} {fuel : Nat} {a b : RE} {pos : Nat}
    {k : Nat → Option Nat}
    (h : reMatch input fuel a pos (fun q => reMatch input fuel b q k) = none) :
    reMatch input fuel (.cat a b) pos k = none := by
  rw [reMatch_cat]; exact h

theorem reMatch_alt_left {input : List Char} {fuel : Nat} {a b : RE} {pos : Nat}
    {k : Nat → Option Nat} {r : Nat}
    (h : reMatch input fuel a pos k = some r) :
    reMatch input fuel (.alt a b) pos k = some r := by
  rw [reMatch_alt, h]; rfl

theorem reMatch_alt_right {input : List Char} {fuel : Nat} {a b : RE} {pos : Nat}
    {k : Nat → Option Nat} {r : Nat}
    (ha : reMatch input fuel a pos k = none) (hb : reMatch input fuel b pos k = some r) :
    reMatch input fuel (.alt a b) pos k = some r := by
  rw [reMatch_alt, ha, hb]; rfl

theorem reMatch_alt_none {input : List Char} {fuel : Nat} {a b : RE} {pos : Nat}
    {k : Nat → Option Nat}
    (ha : reMatch input fuel a pos k = none) (hb : reMatch input fuel b pos k = none) :
    reMatch input fuel (.alt a b) pos k = none := by
  rw [reMatch_alt, ha, hb]; rfl

theorem reMatch_bol_zero {input : List Char} {fuel : Nat} {k : Nat → Option Nat} {r : Nat}
    (hk : k 0 = some r) : reMatch input fuel .bol 0 k = some r := by
  rw [reMatch_bol]; simp [hk]

theorem reMatch_eol_end {input : List Char} {fuel pos : Nat} {k : Nat → Option Nat} {r : Nat}
    (hpos : pos = input.length) (hk : k pos = some r) :
    reMatch input fuel .eol pos k = some r := by
  rw [reMatch_eol, if_pos hpos, hk]

theorem reMatch_wordB_none {input : List Char} {fuel pos : Nat} {k : Nat → Option Nat}
    (hk : k pos = none) : reMatch input fuel .wordB pos k = none := by
  rw [reMatch_wordB]; split <;> simp [hk]

/-! ### Reading the input through `List.drop` -/

theorem get?_of_drop_cons {l : List Char} {pos : Nat} {c : Char} {t : List Char}
    (h : l.drop pos = c :: t) : l.get? pos = some c := by
  rw [List.get?_eq_getElem?, ← List.head?_drop, h, List.head?_cons]

theorem get?_of_drop_nil {l : List Char} {pos : Nat}
    (h : l.drop pos = []) : l.get? pos = none := by
  rw [List.get?_eq_getElem?, ← List.head?_drop, h, List.head?_nil]

theorem drop_succ_of_drop_cons {l : List Char} {pos : Nat} {c : Char} {t : List Char}
    (h : l.drop pos = c :: t) : l.drop (pos + 1) = t := by
  rw [← List.tail_drop, h, List.tail_cons]

theorem drop_append_station {l A rest : List Char} {pos : Nat}
    (h : l.drop pos = A ++ rest) : l.drop (pos + A.length) = rest := by
  rw [← List.drop_drop, h, List.drop_left]

theorem length_le_of_drop {l A rest : List Char} {pos : Nat}
    (h : l.drop pos = A ++ rest) : A.length ≤ l.length := by
  have h1 : (l.drop pos).length ≤ l.length := (List.drop_sublist _ _).length_le
  rw [h, List.length_append] at h1
  omega

end CaseLens

namespace CaseLens

/-- The character class `p` cannot fire at the head of `t` (used as the
stopping condition of a greedy run). -/
def stopB (p : Char → Bool) : List Char → Prop
  | [] => True
  | c :: _ => p c = false

theorem reMatch_star_zero (input : List Char) (a : RE) (pos : Nat) (k : Nat → Option Nat) :
    reMatch input 0 (.star a) pos k = k pos := rfl

theorem reMatch_cls_none_stop {input : List Char} {fuel : Nat} {p : Char → Bool} {pos : Nat}
    {k : Nat → Option Nat} {t : List Char}
    (hd : input.drop pos = t) (hstop : stopB p t) :
    reMatch input fuel (.cls p) pos k = none := by
  match t, hstop with
  | [], _ => exact reMatch_cls_none_end (get?_of_drop_nil hd)
  | c :: t, hstop => exact reMatch_cls_none_false (get?_of_drop_cons hd) hstop

/-- A greedy `(.cls p)*` consumes exactly the maximal run `ds` and hands the
continuation the position after it. -/
theorem reMatch_star_cls_run {input : List Char} {p : Char → Bool}
    (ds : List Char) {t : List Char} {fuel pos : Nat} {k : Nat → Option Nat} {r : Nat}
    (hd : input.drop pos = ds ++ t)
    (hall : ∀ c ∈ ds, p c = true)
    (hstop : stopB p t)
    (hfuel : ds.length < fuel)
    (hk : k (pos + ds.length) = some r) :
    reMatch input fuel (.star (.cls p)) pos k = some r := by
  induction ds generalizing pos fuel with
  | nil =>
    simp only [List.nil_append] at hd
    simp only [List.length_nil, Nat.add_zero] at hk
    cases fuel with
    | zero => rw [reMatch_star_zero, hk]
    | succ f =>
      rw [reMatch_star_succ, reMatch_cls_none_stop hd hstop, hk]; rfl
  | cons c ds ih =>
    cases fuel with
    | zero => omega
    | succ f =>
      rw [reMatch_star_succ]
      have hg : input.get? pos = some c := get?_of_drop_cons hd
      have hc : p c = true := hall c (List.mem_cons_self c ds)
      have hd1 : input.drop (pos + 1) = ds ++ t := drop_succ_of_drop_cons hd
      have hin :
          reMatch input f (.cls p) pos
            (fun q => if pos < q then reMatch input f (.star (.cls p)) q k else none)
            = some r := by
        apply reMatch_cls_some hg hc
        rw [if_pos (Nat.lt_succ_self pos)]
        apply ih hd1 (fun x hx => hall x (List.mem_cons_of_mem c hx)) (by simpa using hfuel)
        have : pos + 1 + ds.length = pos + (c :: ds).length := by
          simp [List.length_cons]; omega
        rw [this, hk]
      rw [hin]; rfl

/-- The failing version: if the continuation fails at every stop the star can
offer (after `j ≤ ds.length` consumed characters), the star fails. -/
theorem reMatch_star_cls_run_none {input : List Char} {p : Char → Bool}
    (ds : List Char) {t : List Char} {fuel pos : Nat} {k : Nat → Option Nat}
    (hd : input.drop pos = ds ++ t)
    (hall : ∀ c ∈ ds, p c = true)
    (hstop : stopB p t)
    (hfuel : ds.length < fuel)
    (hk : ∀ j, j ≤ ds.length → k (pos + j) = none) :
    reMatch input fuel (.star (.cls p)) pos k = none := by
  induction ds generalizing pos fuel with
  | nil =>
    simp only [List.nil_append] at hd
    have hk0 : k pos = none := by simpa using hk 0 (Nat.zero_le _)
    cases fuel with
    | zero => rw [reMatch_star_zero, hk0]
    | succ f =>
      rw [reMatch_star_succ, reMatch_cls_none_stop hd hstop, hk0]; rfl
  | cons c ds ih =>
    cases fuel with
    | zero => omega
    | succ f =>
      rw [reMatch_star_succ]
      have hg : input.get? pos = some c := get?_of_drop_cons hd
      have hc : p c = true := hall c (List.mem_cons_self c ds)
      have hd1 : input.drop (pos + 1) = ds ++ t := drop_succ_of_drop_cons hd
      have hk0 : k pos = none := by simpa using hk 0 (Nat.zero_le _)
      have hin :
          reMatch input f (.cls p) pos
            (fun q => if pos < q then reMatch input f (.star (.cls p)) q k else none)
            = none := by
        rw [reMatch_cls, hg]
        simp only [hc, if_true]
        rw [if_pos (Nat.lt_succ_self pos)]
        apply ih hd1 (fun x hx => hall x (List.mem_cons_of_mem c hx))
          (by simpa using hfuel)
        intro j hj
        have : pos + 1 + j = pos + (j + 1) := by omega
        rw [this]
        exact hk (j + 1) (by simpa using Nat.succ_le_succ hj)
      rw [hin, hk0]; rfl
    
/-- Greedy `r{0,n}` on a maximal run shorter than `n`. -/
theorem reMatch_optRep_cls_run {input : List Char} {p : Char → Bool}
    (n : Nat) (ds : List Char) {t : List Char} {fuel pos : Nat} {k : Nat → Option Nat} {r : Nat}
    (hd : input.drop pos = ds ++ t)
    (hall : ∀ c ∈ ds, p c = true)
    (hstop : stopB p t)
    (hn : ds.length ≤ n)
    (hk : k (pos + ds.length) = some r) :
    reMatch input fuel (reOptRep n (.cls p)) pos k = some r := by
  induction n generalizing ds pos with
  | zero =>
    have : ds = [] := List.length_eq_zero.mp (Nat.le_zero.mp hn)
    subst this
    simp only [List.length_nil, Nat.add_zero] at hk
    exact reMatch_eps_some hk
  | succ n ih =>
    show reMatch input fuel (.opt (.cat (.cls p) (reOptRep n (.cls p)))) pos k = some r
    match ds, hall, hn, hk with
    | [], _, _, hk =>
      simp only [List.nil_append] at hd
      simp only [List.length_nil, Nat.add_zero] at hk
      exact reMatch_opt_skip (reMatch_cat_none (reMatch_cls_none_stop hd hstop)) hk
    | c :: ds, hall, hn, hk =>
      apply reMatch_opt_take
      apply reMatch_cat_some
      apply reMatch_cls_some (get?_of_drop_cons hd) (hall c (List.mem_cons_self c ds))
      show reMatch input fuel (reOptRep n (.cls p)) (pos + 1) k = some r
      apply ih ds (drop_succ_of_drop_cons hd)
        (fun x hx => hall x (List.mem_cons_of_mem c hx)) (by simpa using hn)
      have : pos + 1 + ds.length = pos + (c :: ds).length := by
        simp [List.length_cons]; omega
      rw [this, hk]

/-- `\s+` (as `plusR wsC`) on a maximal nonempty whitespace run. -/
theorem reMatch_plusws_run {input : List Char}
    (c : Char) (ds : List Char) {t : List Char} {fuel pos : Nat} {k : Nat → Option Nat} {r : Nat}
    (hd : input.drop pos = (c :: ds) ++ t)
    (hall : ∀ x ∈ c :: ds, isPyWs x = true)
    (hstop : stopB isPyWs t)
    (hfuel : ds.length < fuel)
    (hk : k (pos + ds.length + 1) = some r) :
    reMatch input fuel (plusR wsC) pos k = some r := by
  show reMatch input fuel (.cat (.cls isPyWs) (.star (.cls isPyWs))) pos k = some r
  apply reMatch_cat_some
  apply reMatch_cls_some (get?_of_drop_cons hd) (hall c (List.mem_cons_self c ds))
  show reMatch input fuel (.star (.cls isPyWs)) (pos + 1) k = some r
  apply reMatch_star_cls_run ds (drop_succ_of_drop_cons hd)
    (fun x hx => hall x (List.mem_cons_of_mem c hx)) hstop hfuel
  have : pos + 1 + ds.length = pos + ds.length + 1 := by omega
  rw [this, hk]

/-- `\s+` fails when the current character is not whitespace (or input ended). -/
theorem reMatch_plusws_none_stop {input : List Char} {fuel pos : Nat} {k : Nat → Option Nat}
    {t : List Char} (hd : input.drop pos = t) (hstop : stopB isPyWs t) :
    reMatch input fuel (plusR wsC) pos k = none := by
  show reMatch input fuel (.cat (.cls isPyWs) (.star (.cls isPyWs))) pos k = none
  exact reMatch_cat_none (reMatch_cls_none_stop hd hstop)

/-- `\s+` also fails over a whitespace run when the continuation fails at
every position the run can reach. -/
theorem reMatch_plusws_run_none {input : List Char}
    (c : Char) (ds : List Char) {t : List Char} {fuel pos : Nat} {k : Nat → Option Nat}
    (hd : input.drop pos = (c :: ds) ++ t)
    (hall : ∀ x ∈ c :: ds, isPyWs x = true)
    (hstop : stopB isPyWs t)
    (hfuel : ds.length < fuel)
    (hk : ∀ j, 1 ≤ j → j ≤ ds.length + 1 → k (pos + j) = none) :
    reMatch input fuel (plusR wsC) pos k = none := by
  show reMatch input fuel (.cat (.cls isPyWs) (.star (.cls isPyWs))) pos k = none
  apply reMatch_cat_none
  rw [reMatch_cls, get?_of_drop_cons hd]
  simp only [hall c (List.mem_cons_self c ds), if_true]
  apply reMatch_star_cls_run_none ds (drop_succ_of_drop_cons hd)
    (fun x hx => hall x (List.mem_cons_of_mem c hx)) hstop hfuel
  intro j hj
  have : pos + 1 + j = pos + (j + 1) := by omega
  rw [this]
  exact hk (j + 1) (by omega) (by omega)

end CaseLens

namespace CaseLens

/-! ### Character-class facts for digit characters -/

theorem uintLe {x y : UInt32} : x ≤ y ↔ x.toNat ≤ y.toNat := Iff.rfl

theorem digit_not_ws {c : Char} (h : c.isDigit = true) : isPyWs c = false := by
  simp [Char.isDigit, uintLe, UInt32.size] at h
  simp [isPyWs, Char.ext_iff, UInt32.ext_iff, uintLe, UInt32.size]
  omega

theorem digit_not_dash {c : Char} (h : c.isDigit = true) :
    (c = '-' || c.val = 0x2013 || c.val = 0x2014) = false := by
  simp [Char.isDigit, uintLe, UInt32.size] at h
  simp [Char.ext_iff, UInt32.ext_iff, UInt32.size]
  omega

theorem digit_not_pp {c : Char} (h : c.isDigit = true) : (c = 'P' || c = 'p') = false := by
  simp [Char.isDigit, uintLe, UInt32.size] at h
  simp [Char.ext_iff, UInt32.ext_iff, UInt32.size]
  omega

theorem digit_not_upper {c : Char} (h : c.isDigit = true) :
    ('A' ≤ c && c ≤ 'Z') = false := by
  simp [Char.isDigit, uintLe, UInt32.size] at h
  simp [Char.le_def, uintLe, UInt32.size]
  omega

/-! ### Literal sequences -/

theorem reMatch_litL_self (l : List Char) {input t : List Char} {fuel pos : Nat}
    {k : Nat → Option Nat} {r : Nat}
    (hd : input.drop pos = l ++ t)
    (hk : k (pos + l.length) = some r) :
    reMatch input fuel (litL l) pos k = some r := by
  induction l generalizing pos with
  | nil =>
    simp only [List.length_nil, Nat.add_zero] at hk
    exact reMatch_eps_some hk
  | cons c l ih =>
    show reMatch input fuel (.cat (lit1 c) (litL l)) pos k = some r
    apply reMatch_cat_some
    apply reMatch_cls_some (get?_of_drop_cons hd) (by simp)
    show reMatch input fuel (litL l) (pos + 1) k = some r
    apply ih (drop_succ_of_drop_cons hd)
    have : pos + 1 + l.length = pos + (c :: l).length := by
      simp [List.length_cons]; omega
    rw [this, hk]

theorem reMatch_litL_head_none (c : Char) (l : List Char) {input t : List Char}
    {fuel pos : Nat} {k : Nat → Option Nat}
    (hd : input.drop pos = t) (hstop : stopB (fun x => x = c) t) :
    reMatch input fuel (litL (c :: l)) pos k = none := by
  show reMatch input fuel (.cat (lit1 c) (litL l)) pos k = none
  exact reMatch_cat_none (reMatch_cls_none_stop hd hstop)

/-! ### Walking the optional components of pattern 2 -/

theorem walk_starws_run (ds : List Char) {input t : List Char} {fuel pos : Nat}
    {k : Nat → Option Nat} {r : Nat}
    (hd : input.drop pos = ds ++ t)
    (hall : ∀ c ∈ ds, isPyWs c = true)
    (hstop : stopB isPyWs t)
    (hfuel : ds.length < fuel)
    (hk : k (pos + ds.length) = some r) :
    reMatch input fuel (.star wsC) pos k = some r := by
  show reMatch input fuel (.star (.cls isPyWs)) pos k = some r
  exact reMatch_star_cls_run ds hd hall hstop hfuel hk

theorem walk_starws_rep (m : Nat) {input t : List Char} {fuel pos : Nat}
    {k : Nat → Option Nat} {r : Nat}
    (hd : input.drop pos = List.replicate m ' ' ++ t)
    (hstop : stopB isPyWs t)
    (hfuel : m < fuel)
    (hk : k (pos + m) = some r) :
    reMatch input fuel (.star wsC) pos k = some r := by
  apply walk_starws_run (List.replicate m ' ') hd
    (fun c hc => by rw [(List.eq_of_mem_replicate hc : c = ' ')]; decide) hstop
  · simpa using hfuel
  · rw [List.length_replicate]; exact hk

theorem walk_starws_skip {input t : List Char} {fuel pos : Nat}
    {k : Nat → Option Nat} {r : Nat}
    (hd : input.drop pos = t)
    (hstop : stopB isPyWs t)
    (hk : k pos = some r) :
    reMatch input fuel (.star wsC) pos k = some r := by
  show reMatch input fuel (.star (.cls isPyWs)) pos k = some r
  cases fuel with
  | zero => rw [reMatch_star_zero, hk]
  | succ f => rw [reMatch_star_succ, reMatch_cls_none_stop hd hstop, hk]; rfl

theorem walk_dash_take {input t : List Char} {fuel pos : Nat}
    {k : Nat → Option Nat} {r : Nat}
    (hd : input.drop pos = '-' :: t) (hk : k (pos + 1) = some r) :
    reMatch input fuel (.opt dashC) pos k = some r := by
  apply reMatch_opt_take
  show reMatch input fuel (.cls fun c => c = '-' || c.val = 0x2013 || c.val = 0x2014)
    pos k = some r
  exact reMatch_cls_some (get?_of_drop_cons hd) (by decide) hk

theorem walk_dash_skip {input t : List Char} {fuel pos : Nat}
    {k : Nat → Option Nat} {r : Nat}
    (hd : input.drop pos = t)
    (hstop : stopB (fun c => c = '-' || c.val = 0x2013 || c.val = 0x2014) t)
    (hk : k pos = some r) :
    reMatch input fuel (.opt dashC) pos k = some r := by
  apply reMatch_opt_skip _ hk
  show reMatch input fuel (.cls fun c => c = '-' || c.val = 0x2013 || c.val = 0x2014)
    pos k = none
  exact reMatch_cls_none_stop hd hstop

theorem walk_page_take {input t : List Char} {fuel pos : Nat}
    {k : Nat → Option Nat} {r : Nat}
    (hd : input.drop pos = 'P' :: 'a' :: 'g' :: 'e' :: ' ' :: t)
    (hstop : stopB isPyWs t)
    (hfuel : 0 < fuel)
    (hk : k (pos + 5) = some r) :
    reMatch input fuel (.opt pageGroup) pos k = some r := by
  apply reMatch_opt_take
  show reMatch input fuel
    (.cat (.cls fun c => c = 'P' || c = 'p') (.cat (litL ['a', 'g', 'e']) (plusR wsC)))
    pos k = some r
  apply reMatch_cat_some
  apply reMatch_cls_some (get?_of_drop_cons hd) (by decide)
  show reMatch input fuel (.cat (litL ['a', 'g', 'e']) (plusR wsC)) (pos + 1) k = some r
  apply reMatch_cat_some
  have hd1 : input.drop (pos + 1) = ['a', 'g', 'e'] ++ (' ' :: t) :=
    drop_succ_of_drop_cons hd
  apply reMatch_litL_self ['a', 'g', 'e'] hd1
  show reMatch input fuel (plusR wsC) (pos + 1 + 3) k = some r
  have hd4 : input.drop (pos + 1 + 3) = (' ' :: []) ++ t := by
    have := drop_append_station hd1
    simpa using this
  apply reMatch_plusws_run ' ' [] hd4 (by decide) hstop (by simpa using hfuel)
  have h5eq : pos + 1 + 3 + List.length ([] : List Char) + 1 = pos + 5 := by simp
  rw [h5eq, hk]

theorem walk_page_skip {input t : List Char} {fuel pos : Nat}
    {k : Nat → Option Nat} {r : Nat}
    (hd : input.drop pos = t)
    (hstop : stopB (fun c => c = 'P' || c = 'p') t)
    (hk : k pos = some r) :
    reMatch input fuel (.opt pageGroup) pos k = some r := by
  apply reMatch_opt_skip _ hk
  show reMatch input fuel
    (.cat (.cls fun c => c = 'P' || c = 'p') (.cat (litL ['a', 'g', 'e']) (plusR wsC)))
    pos k = none
  exact reMatch_cat_none (reMatch_cls_none_stop hd hstop)

theorem reMatch_digits_run (ds : List Char) {input t : List Char} {fuel pos : Nat}
    {k : Nat → Option Nat} {r : Nat}
    (hd : input.drop pos = ds ++ t)
    (hall : ∀ c ∈ ds, c.isDigit = true)
    (hstop : stopB (fun c => c.isDigit) t)
    (h1 : 1 ≤ ds.length) (h5 : ds.length ≤ 5)
    (hk : k (pos + ds.length) = some r) :
    reMatch input fuel (.cat (reReq 1 digitC) (reOptRep 4 digitC)) pos k = some r := by
  match ds, hall, h1, h5, hk with
  | c :: ds, hall, _, h5, hk =>
    apply reMatch_cat_some
    show reMatch input fuel (.cat digitC (reReq 0 digitC)) pos _ = some r
    apply reMatch_cat_some
    apply reMatch_cls_some (get?_of_drop_cons hd) (hall c (List.mem_cons_self c ds))
    show reMatch input fuel (reReq 0 digitC) (pos + 1) _ = some r
    apply reMatch_eps_some
    show reMatch input fuel (reOptRep 4 digitC) (pos + 1) k = some r
    apply reMatch_optRep_cls_run 4 ds (drop_succ_of_drop_cons hd)
      (fun x hx => hall x (List.mem_cons_of_mem c hx)) hstop
      (by simp at h5 ⊢; omega)
    have : pos + 1 + ds.length = pos + (c :: ds).length := by
      simp [List.length_cons]; omega
    rw [this, hk]

end CaseLens

namespace CaseLens

theorem drop_replicate_append {l rest : List Char} {c : Char} {m pos : Nat}
    (hd : l.drop pos = List.replicate m c ++ rest) (j : Nat) (hj : j ≤ m) :
    l.drop (pos + j) = List.replicate (m - j) c ++ rest := by
  rw [← List.drop_drop, hd, List.drop_append_of_le_length (by simpa using hj),
    List.drop_replicate]

theorem reMatch_plusws_one {input t : List Char} {fuel pos : Nat}
    {k : Nat → Option Nat} {r : Nat}
    (hd : input.drop pos = ' ' :: t) (hstop : stopB isPyWs t) (hfuel : 0 < fuel)
    (hk : k (pos + 1) = some r) :
    reMatch input fuel (plusR wsC) pos k = some r := by
  apply reMatch_plusws_run ' ' [] (by simpa using hd) (by decide) hstop (by simpa using hfuel)
  simpa using hk

theorem reMatch_kwalt_none {input t : List Char} {fuel pos : Nat} {k : Nat → Option Nat}
    (hd : input.drop pos = t)
    (h1 : stopB (fun x => x = 'o') t)
    (h2 : stopB (fun x => x = 'd') t)
    (h3 : stopB (fun x => x = 's') t) :
    reMatch input fuel
      (.alt (litL ['o', 'f']) (.alt (litL ['d', 'e']) (litL ['s', 'u', 'r']))) pos k
      = none :=
  reMatch_alt_none (reMatch_litL_head_none 'o' ['f'] hd h1)
    (reMatch_alt_none (reMatch_litL_head_none 'd' ['e'] hd h2)
      (reMatch_litL_head_none 's' ['u', 'r'] hd h3))

/-- `(?:\s+(?:of|de|sur)\s+\d{1,5})?` skipped: the text at `pos` is not
whitespace (or has ended), so the group cannot start. -/
theorem walk_of_skip_stop {input t : List Char} {fuel pos : Nat}
    {k : Nat → Option Nat} {r : Nat}
    (hd : input.drop pos = t) (hstop : stopB isPyWs t) (hk : k pos = some r) :
    reMatch input fuel (.opt ofGroup) pos k = some r := by
  apply reMatch_opt_skip _ hk
  show reMatch input fuel (.cat (plusR wsC) _) pos _ = none
  exact reMatch_cat_none (reMatch_plusws_none_stop hd hstop)

/-- `(?:\s+(?:of|de|sur)\s+\d{1,5})?` skipped over a whitespace run followed by
a dash or the end of input: every stop of `\s+` leaves the keyword alternation
facing a space, a dash, or the end, so the whole group fails. -/
theorem walk_of_skip_ws (m : Nat) {input rest : List Char} {fuel pos : Nat}
    {k : Nat → Option Nat} {r : Nat}
    (hd : input.drop pos = List.replicate m ' ' ++ rest)
    (hm : 1 ≤ m)
    (hrest : rest = [] ∨ ∃ t2, rest = '-' :: t2)
    (hfuel : m < fuel)
    (hk : k pos = some r) :
    reMatch input fuel (.opt ofGroup) pos k = some r := by
  apply reMatch_opt_skip _ hk
  show reMatch input fuel
    (.cat (plusR wsC)
      (.cat (.alt (litL ['o', 'f']) (.alt (litL ['d', 'e']) (litL ['s', 'u', 'r'])))
        (.cat (plusR wsC) (.cat (reReq 1 digitC) (reOptRep 4 digitC))))) pos _ = none
  apply reMatch_cat_none
  obtain ⟨m', rfl⟩ : ∃ m', m = m' + 1 := ⟨m - 1, by omega⟩
  have hd' : input.drop pos = (' ' :: List.replicate m' ' ') ++ rest := by
    simpa [List.replicate_succ] using hd
  have hstop : stopB isPyWs rest := by
    rcases hrest with rfl | ⟨t2, rfl⟩
    · trivial
    · show isPyWs '-' = false
      decide
  apply reMatch_plusws_run_none ' ' (List.replicate m' ' ') hd'
    (by
      intro x hx
      rcases List.mem_cons.mp hx with rfl | hx
      · decide
      · rw [List.eq_of_mem_replicate hx]; decide)
    hstop (by simp only [List.length_replicate]; omega)
  intro j h1j hjm
  have hdj : input.drop (pos + j) = List.replicate (m' + 1 - j) ' ' ++ rest :=
    drop_replicate_append hd j (by simpa using hjm)
  have hstopAll : ∀ p : Char → Bool, p ' ' = false → p '-' = false →
      stopB p (List.replicate (m' + 1 - j) ' ' ++ rest) := by
    intro p hsp hdp
    rcases Nat.eq_zero_or_pos (m' + 1 - j) with hz | hpos2
    · rw [hz]
      simp only [List.replicate_zero, List.nil_append]
      rcases hrest with rfl | ⟨t2, rfl⟩
      · trivial
      · exact hdp
    · obtain ⟨mj, hmj⟩ : ∃ mj, m' + 1 - j = mj + 1 := ⟨m' - j, by omega⟩
      rw [hmj, List.replicate_succ]
      exact hsp
  show reMatch input fuel
    (.cat (.alt (litL ['o', 'f']) (.alt (litL ['d', 'e']) (litL ['s', 'u', 'r'])))
      (.cat (plusR wsC) (.cat (reReq 1 digitC) (reOptRep 4 digitC)))) (pos + j) k = none
  exact reMatch_cat_none (reMatch_kwalt_none hdj
    (hstopAll _ (by decide) (by decide))
    (hstopAll _ (by decide) (by decide))
    (hstopAll _ (by decide) (by decide)))

/-- `(?:\s+(?:of|de|sur)\s+\d{1,5})?` taken on a canonical single-spaced
`" of 123"`-shaped suffix. -/
theorem walk_of_take (kw ds2 : List Char) {input t : List Char} {fuel pos : Nat}
    {k : Nat → Option Nat} {r : Nat}
    (hkw : kw = ['o', 'f'] ∨ kw = ['d', 'e'] ∨ kw = ['s', 'u', 'r'])
    (hd : input.drop pos = ' ' :: (kw ++ (' ' :: (ds2 ++ t))))
    (hall : ∀ c ∈ ds2, c.isDigit = true)
    (hstop : stopB (fun c => c.isDigit) t)
    (h1 : 1 ≤ ds2.length) (h5 : ds2.length ≤ 5)
    (hfuel : 0 < fuel)
    (hk : k (pos + 1 + kw.length + 1 + ds2.length) = some r) :
    reMatch input fuel (.opt ofGroup) pos k = some r := by
  obtain ⟨d2, ds2tl, rfl⟩ : ∃ d2 ds2tl, ds2 = d2 :: ds2tl := by
    cases ds2 with
    | nil => simp at h1
    | cons a b => exact ⟨a, b, rfl⟩
  have hds2stop : stopB isPyWs ((d2 :: ds2tl) ++ t) := by
    show isPyWs d2 = false
    exact digit_not_ws (hall d2 (List.mem_cons_self d2 ds2tl))
  apply reMatch_opt_take
  show reMatch input fuel
    (.cat (plusR wsC)
      (.cat (.alt (litL ['o', 'f']) (.alt (litL ['d', 'e']) (litL ['s', 'u', 'r'])))
        (.cat (plusR wsC) (.cat (reReq 1 digitC) (reOptRep 4 digitC))))) pos k = some r
  apply reMatch_cat_some
  rcases hkw with rfl | rfl | rfl
  · -- " of N"
    have hd1 : input.drop (pos + 1) = ['o', 'f'] ++ (' ' :: ((d2 :: ds2tl) ++ t)) :=
      drop_succ_of_drop_cons hd
    have hd2 : input.drop (pos + 1 + 2) = ' ' :: ((d2 :: ds2tl) ++ t) := by
      simpa using drop_append_station hd1
    have hd3 : input.drop (pos + 1 + 2 + 1) = (d2 :: ds2tl) ++ t :=
      drop_succ_of_drop_cons hd2
    have hdig : reMatch input fuel (.cat (reReq 1 digitC) (reOptRep 4 digitC))
        (pos + 1 + 2 + 1) k = some r := by
      apply reMatch_digits_run (d2 :: ds2tl) hd3 hall hstop h1 h5
      rw [show pos + 1 + 2 + 1 + (d2 :: ds2tl).length
            = pos + 1 + List.length ['o', 'f'] + 1 + (d2 :: ds2tl).length from by simp]
      exact hk
    have hR3 : reMatch input fuel
        (.cat (plusR wsC) (.cat (reReq 1 digitC) (reOptRep 4 digitC)))
        (pos + 1 + 2) k = some r := by
      apply reMatch_cat_some
      exact reMatch_plusws_one hd2 hds2stop hfuel hdig
    have hAlt : reMatch input fuel
        (.cat (.alt (litL ['o', 'f']) (.alt (litL ['d', 'e']) (litL ['s', 'u', 'r'])))
          (.cat (plusR wsC) (.cat (reReq 1 digitC) (reOptRep 4 digitC))))
        (pos + 1) k = some r := by
      apply reMatch_cat_some
      apply reMatch_alt_left
      apply reMatch_litL_self ['o', 'f'] hd1
      simpa using hR3
    apply reMatch_plusws_one hd
      (show stopB isPyWs (['o', 'f'] ++ (' ' :: ((d2 :: ds2tl) ++ t))) from by
        show isPyWs 'o' = false
        decide)
      hfuel
    exact hAlt
  · -- " de N"
    have hd1 : input.drop (pos + 1) = ['d', 'e'] ++ (' ' :: ((d2 :: ds2tl) ++ t)) :=
      drop_succ_of_drop_cons hd
    have hd2 : input.drop (pos + 1 + 2) = ' ' :: ((d2 :: ds2tl) ++ t) := by
      simpa using drop_append_station hd1
    have hd3 : input.drop (pos + 1 + 2 + 1) = (d2 :: ds2tl) ++ t :=
      drop_succ_of_drop_cons hd2
    have hdig : reMatch input fuel (.cat (reReq 1 digitC) (reOptRep 4 digitC))
        (pos + 1 + 2 + 1) k = some r := by
      apply reMatch_digits_run (d2 :: ds2tl) hd3 hall hstop h1 h5
      rw [show pos + 1 + 2 + 1 + (d2 :: ds2tl).length
            = pos + 1 + List.length ['d', 'e'] + 1 + (d2 :: ds2tl).length from by simp]
      exact hk
    have hR3 : reMatch input fuel
        (.cat (plusR wsC) (.cat (reReq 1 digitC) (reOptRep 4 digitC)))
        (pos + 1 + 2) k = some r := by
      apply reMatch_cat_some
      exact reMatch_plusws_one hd2 hds2stop hfuel hdig
    have hAlt : reMatch input fuel
        (.cat (.alt (litL ['o', 'f']) (.alt (litL ['d', 'e']) (litL ['s', 'u', 'r'])))
          (.cat (plusR wsC) (.cat (reReq 1 digitC) (reOptRep 4 digitC))))
        (pos + 1) k = some r := by
      apply reMatch_cat_some
      apply reMatch_alt_right
      · exact reMatch_litL_head_none 'o' ['f'] hd1
          (by show decide ('d' = 'o') = false; decide)
      apply reMatch_alt_left
      apply reMatch_litL_self ['d', 'e'] hd1
      simpa using hR3
    apply reMatch_plusws_one hd
      (show stopB isPyWs (['d', 'e'] ++ (' ' :: ((d2 :: ds2tl) ++ t))) from by
        show isPyWs 'd' = false
        decide)
      hfuel
    exact hAlt
  · -- " sur N"
    have hd1 : input.drop (pos + 1) = ['s', 'u', 'r'] ++ (' ' :: ((d2 :: ds2tl) ++ t)) :=
      drop_succ_of_drop_cons hd
    have hd2 : input.drop (pos + 1 + 3) = ' ' :: ((d2 :: ds2tl) ++ t) := by
      simpa using drop_append_station hd1
    have hd3 : input.drop (pos + 1 + 3 + 1) = (d2 :: ds2tl) ++ t :=
      drop_succ_of_drop_cons hd2
    have hdig : reMatch input fuel (.cat (reReq 1 digitC) (reOptRep 4 digitC))
        (pos + 1 + 3 + 1) k = some r := by
      apply reMatch_digits_run (d2 :: ds2tl) hd3 hall hstop h1 h5
      rw [show pos + 1 + 3 + 1 + (d2 :: ds2tl).length
            = pos + 1 + List.length ['s', 'u', 'r'] + 1 + (d2 :: ds2tl).length from by simp]
      exact hk
    have hR3 : reMatch input fuel
        (.cat (plusR wsC) (.cat (reReq 1 digitC) (reOptRep 4 digitC)))
        (pos + 1 + 3) k = some r := by
      apply reMatch_cat_some
      exact reMatch_plusws_one hd2 hds2stop hfuel hdig
    have hAlt : reMatch input fuel
        (.cat (.alt (litL ['o', 'f']) (.alt (litL ['d', 'e']) (litL ['s', 'u', 'r'])))
          (.cat (plusR wsC) (.cat (reReq 1 digitC) (reOptRep 4 digitC))))
        (pos + 1) k = some r := by
      apply reMatch_cat_some
      apply reMatch_alt_right
      · exact reMatch_litL_head_none 'o' ['f'] hd1
          (by show decide ('s' = 'o') = false; decide)
      apply reMatch_alt_right
      · exact reMatch_litL_head_none 'd' ['e'] hd1
          (by show decide ('s' = 'd') = false; decide)
      apply reMatch_litL_self ['s', 'u', 'r'] hd1
      simpa using hR3
    apply reMatch_plusws_one hd
      (show stopB isPyWs (['s', 'u', 'r'] ++ (' ' :: ((d2 :: ds2tl) ++ t))) from by
        show isPyWs 's' = false
        decide)
      hfuel
    exact hAlt

end CaseLens

namespace CaseLens

/-! ### The family of standalone page-number lines -/

def dashPre : Bool → List Char
  | true => ['-', ' ']
  | false => []

def pagePre : Bool → List Char
  | true => ['P', 'a', 'g', 'e', ' ']
  | false => []

def dashPost : Bool → List Char
  | true => [' ', '-']
  | false => []

/-- The optional `of/de/sur N` suffix, canonically single-spaced. -/
def sufPart : Option (List Char × List Char) → List Char
  | none => []
  | some (kw, ds2) => ' ' :: (kw ++ (' ' :: ds2))

/-- A run of one to five digit characters. -/
def digits15 (ds : List Char) : Prop :=
  1 ≤ ds.length ∧ ds.length ≤ 5 ∧ ∀ c ∈ ds, c.isDigit = true

def sufOK : Option (List Char × List Char) → Prop
  | none => True
  | some (kw, ds2) =>
    (kw = ['o', 'f'] ∨ kw = ['d', 'e'] ∨ kw = ['s', 'u', 'r']) ∧ digits15 ds2

/-- A standalone page-number line: optional leading spaces, optional dash,
optional `Page ` prefix, 1–5 digits, optional `of/de/sur N`, optional trailing
dash, optional trailing spaces. -/
def pnLine (lead : Nat) (dash1 pg : Bool) (ds : List Char)
    (suffix : Option (List Char × List Char)) (dash2 : Bool) (trail : Nat) : List Char :=
  List.replicate lead ' ' ++ (dashPre dash1 ++ (pagePre pg ++ (ds ++
    (sufPart suffix ++ (dashPost dash2 ++ List.replicate trail ' ')))))

/-- Pattern 2 matches every standalone page-number line in full. -/
theorem pattern2_matches_pnLine (lead : Nat) (dash1 pg : Bool) (ds : List Char)
    (suffix : Option (List Char × List Char)) (dash2 : Bool) (trail : Nat)
    (hds : digits15 ds) (hsuf : sufOK suffix) :
    matchEndAt pattern2 (pnLine lead dash1 pg ds suffix dash2 trail) 0
      = some (pnLine lead dash1 pg ds suffix dash2 trail).length := by
  obtain ⟨hds1, hds5, hdsall⟩ := hds
  obtain ⟨d, dstl, rfl⟩ : ∃ d t, ds = d :: t := by
    cases ds with
    | nil => simp at hds1
    | cons a b => exact ⟨a, b, rfl⟩
  have hddig : d.isDigit = true := hdsall d (List.mem_cons_self d dstl)
  have hdw : isPyWs d = false := digit_not_ws hddig
  have hdp : (d = 'P' || d = 'p') = false := digit_not_pp hddig
  have hdd : (d = '-' || d.val = 0x2013 || d.val = 0x2014) = false := digit_not_dash hddig
  set input := pnLine lead dash1 pg (d :: dstl) suffix dash2 trail with hinput
  set fuel := input.length + 1 with hfuel
  have hlen : input.length
      = lead + (dashPre dash1).length + (pagePre pg).length + (d :: dstl).length
        + (sufPart suffix).length + (dashPost dash2).length + trail := by
    rw [hinput]
    simp only [pnLine, List.length_append, List.length_replicate]
    omega
  have hdslen : (d :: dstl).length = dstl.length + 1 := by simp
  have hfuelpos : 0 < fuel := by omega
  -- the remainder after each block
  have hd0 : input.drop 0
      = List.replicate lead ' ' ++ (dashPre dash1 ++ (pagePre pg ++ ((d :: dstl) ++
        (sufPart suffix ++ (dashPost dash2 ++ List.replicate trail ' '))))) := by
    rw [List.drop_zero, hinput]
    rfl
  have hd1 : input.drop lead
      = dashPre dash1 ++ (pagePre pg ++ ((d :: dstl) ++
        (sufPart suffix ++ (dashPost dash2 ++ List.replicate trail ' ')))) := by
    simpa using drop_append_station hd0
  have hd2 : input.drop (lead + (dashPre dash1).length)
      = pagePre pg ++ ((d :: dstl) ++
        (sufPart suffix ++ (dashPost dash2 ++ List.replicate trail ' '))) :=
    drop_append_station hd1
  have hd3 : input.drop (lead + (dashPre dash1).length + (pagePre pg).length)
      = (d :: dstl) ++
        (sufPart suffix ++ (dashPost dash2 ++ List.replicate trail ' ')) :=
    drop_append_station hd2
  have hd4 : input.drop
      (lead + (dashPre dash1).length + (pagePre pg).length + (d :: dstl).length)
      = sufPart suffix ++ (dashPost dash2 ++ List.replicate trail ' ') :=
    drop_append_station hd3
  have hd5 : input.drop
      (lead + (dashPre dash1).length + (pagePre pg).length + (d :: dstl).length
        + (sufPart suffix).length)
      = dashPost dash2 ++ List.replicate trail ' ' :=
    drop_append_station hd4
  -- length bounds for star fuel
  have hlead : lead ≤ input.length := by omega
  have htrail : trail ≤ input.length := by omega
  -- stopping facts
  have hstopPost : stopB (fun c => c.isDigit) (dashPost dash2 ++ List.replicate trail ' ') := by
    cases dash2 with
    | false =>
      cases trail with
      | zero => trivial
      | succ t2 => exact (by decide : (' ').isDigit = false)
    | true => exact (by decide : (' ').isDigit = false)
  have hstopDig : stopB (fun c => c.isDigit)
      (sufPart suffix ++ (dashPost dash2 ++ List.replicate trail ' ')) := by
    rcases suffix with _ | ⟨kw, ds2⟩
    · exact hstopPost
    · exact (by decide : (' ').isDigit = false)
  have hstopPp : stopB (fun c => c = 'P' || c = 'p')
      ((d :: dstl) ++ (sufPart suffix ++ (dashPost dash2 ++ List.replicate trail ' ')))
      := hdp
  have hstop2ws : stopB isPyWs
      (pagePre pg ++ ((d :: dstl) ++
        (sufPart suffix ++ (dashPost dash2 ++ List.replicate trail ' ')))) := by
    cases pg with
    | false => exact hdw
    | true => exact (by decide : isPyWs 'P' = false)
  have hstop2dash : stopB (fun c => c = '-' || c.val = 0x2013 || c.val = 0x2014)
      (pagePre pg ++ ((d :: dstl) ++
        (sufPart suffix ++ (dashPost dash2 ++ List.replicate trail ' ')))) := by
    cases pg with
    | false => exact hdd
    | true => exact (by decide : ('P' = '-' || ('P').val = 0x2013 || ('P').val = 0x2014) = false)
  have hstop1 : stopB isPyWs
      (dashPre dash1 ++ (pagePre pg ++ ((d :: dstl) ++
        (sufPart suffix ++ (dashPost dash2 ++ List.replicate trail ' '))))) := by
    cases dash1 with
    | false => exact hstop2ws
    | true => exact (by decide : isPyWs '-' = false)
  -- the trailing components: `\s* -? \s* $` from the end of the of-group on
  have h7 : reMatch input fuel
      (.cat (.star wsC) (.cat (.opt dashC) (.cat (.star wsC) .eol)))
      (lead + (dashPre dash1).length + (pagePre pg).length + (d :: dstl).length
        + (sufPart suffix).length) (fun e => some e) = some input.length := by
    cases dash2 with
    | true =>
      have hpost2 : (dashPost true).length = 2 := rfl
      have hc : input.drop
          (lead + (dashPre dash1).length + (pagePre pg).length + (d :: dstl).length
            + (sufPart suffix).length)
          = [' '] ++ ('-' :: List.replicate trail ' ') := by simpa [dashPost] using hd5
      apply reMatch_cat_some
      apply walk_starws_run [' '] hc (by decide) (by decide : isPyWs '-' = false)
        (by simp only [List.length_cons, List.length_nil]; omega)
      show reMatch input fuel (.cat (.opt dashC) (.cat (.star wsC) .eol))
        (lead + (dashPre dash1).length + (pagePre pg).length + (d :: dstl).length
          + (sufPart suffix).length + 1) (fun e => some e) = some input.length
      apply reMatch_cat_some
      apply walk_dash_take (drop_succ_of_drop_cons hc)
      show reMatch input fuel (.cat (.star wsC) .eol)
        (lead + (dashPre dash1).length + (pagePre pg).length + (d :: dstl).length
          + (sufPart suffix).length + 1 + 1) (fun e => some e) = some input.length
      apply reMatch_cat_some
      have hc2 : input.drop
          (lead + (dashPre dash1).length + (pagePre pg).length + (d :: dstl).length
            + (sufPart suffix).length + 1 + 1)
          = List.replicate trail ' ' ++ [] := by
        simpa using drop_succ_of_drop_cons (drop_succ_of_drop_cons hc)
      apply walk_starws_rep trail hc2 trivial (by omega)
      apply reMatch_eol_end (by omega)
      exact congrArg some (by omega)
    | false =>
      have hpost0 : (dashPost false).length = 0 := rfl
      have hc : input.drop
          (lead + (dashPre dash1).length + (pagePre pg).length + (d :: dstl).length
            + (sufPart suffix).length)
          = List.replicate trail ' ' ++ [] := by simpa [dashPost] using hd5
      apply reMatch_cat_some
      apply walk_starws_rep trail hc trivial (by omega)
      show reMatch input fuel (.cat (.opt dashC) (.cat (.star wsC) .eol))
        (lead + (dashPre dash1).length + (pagePre pg).length + (d :: dstl).length
          + (sufPart suffix).length + trail) (fun e => some e) = some input.length
      have hcend : input.drop
          (lead + (dashPre dash1).length + (pagePre pg).length + (d :: dstl).length
            + (sufPart suffix).length + trail) = [] := by
        simpa using drop_append_station hc
      apply reMatch_cat_some
      apply walk_dash_skip hcend trivial
      apply reMatch_cat_some
      apply walk_starws_skip hcend trivial
      apply reMatch_eol_end (by omega)
      exact congrArg some (by omega)
  -- the optional of/de/sur group
  have h6 : reMatch input fuel
      (.cat (.opt ofGroup)
        (.cat (.star wsC) (.cat (.opt dashC) (.cat (.star wsC) .eol))))
      (lead + (dashPre dash1).length + (pagePre pg).length + (d :: dstl).length)
      (fun e => some e) = some input.length := by
    apply reMatch_cat_some
    rcases suffix with _ | ⟨kw, ds2⟩
    · -- no suffix: the group must fail however much whitespace `\s+` eats
      have hsuf0 : (sufPart none).length = 0 := rfl
      cases dash2 with
      | true =>
        have hc : input.drop
            (lead + (dashPre dash1).length + (pagePre pg).length + (d :: dstl).length)
            = List.replicate 1 ' ' ++ ('-' :: List.replicate trail ' ') := by
          simpa [sufPart, dashPost] using hd4
        apply walk_of_skip_ws 1 hc (by omega) (Or.inr ⟨_, rfl⟩) (by omega)
        have : lead + (dashPre dash1).length + (pagePre pg).length + (d :: dstl).length
            = lead + (dashPre dash1).length + (pagePre pg).length + (d :: dstl).length
              + (sufPart (none : Option (List Char × List Char))).length := by
          omega
        rw [this] at h7 ⊢
        exact h7
      | false =>
        cases trail with
        | zero =>
          have hc : input.drop
              (lead + (dashPre dash1).length + (pagePre pg).length + (d :: dstl).length)
              = [] := by simpa [sufPart, dashPost] using hd4
          apply walk_of_skip_stop hc trivial
          have : lead + (dashPre dash1).length + (pagePre pg).length + (d :: dstl).length
              = lead + (dashPre dash1).length + (pagePre pg).length + (d :: dstl).length
                + (sufPart (none : Option (List Char × List Char))).length := by
            omega
          rw [this] at h7 ⊢
          exact h7
        | succ t2 =>
          have hc : input.drop
              (lead + (dashPre dash1).length + (pagePre pg).length + (d :: dstl).length)
              = List.replicate (t2 + 1) ' ' ++ [] := by
            simpa [sufPart, dashPost] using hd4
          apply walk_of_skip_ws (t2 + 1) hc (by omega) (Or.inl rfl) (by omega)
          have : lead + (dashPre dash1).length + (pagePre pg).length + (d :: dstl).length
              = lead + (dashPre dash1).length + (pagePre pg).length + (d :: dstl).length
                + (sufPart (none : Option (List Char × List Char))).length := by
            omega
          rw [this] at h7 ⊢
          exact h7
    · -- suffix present
      obtain ⟨hkw, hd21, hd25, hd2all⟩ :
          (kw = ['o', 'f'] ∨ kw = ['d', 'e'] ∨ kw = ['s', 'u', 'r'])
            ∧ 1 ≤ ds2.length ∧ ds2.length ≤ 5 ∧ ∀ c ∈ ds2, c.isDigit = true := by
        obtain ⟨h1, h2, h3, h4⟩ := hsuf
        exact ⟨h1, h2, h3, h4⟩
      have hc : input.drop
          (lead + (dashPre dash1).length + (pagePre pg).length + (d :: dstl).length)
          = ' ' :: (kw ++ (' ' :: (ds2 ++ (dashPost dash2 ++ List.replicate trail ' '))))
          := by
        rw [hd4]
        simp [sufPart, List.append_assoc]
      apply walk_of_take kw ds2 hkw hc hd2all hstopPost hd21 hd25 hfuelpos
      have hpos : lead + (dashPre dash1).length + (pagePre pg).length
            + (d :: dstl).length + 1 + kw.length + 1 + ds2.length
          = lead + (dashPre dash1).length + (pagePre pg).length + (d :: dstl).length
            + (sufPart (some (kw, ds2))).length := by
        simp [sufPart]
        omega
      rw [hpos]
      exact h7
  -- the digit block
  have h5 : reMatch input fuel
      (.cat (.cat (reReq 1 digitC) (reOptRep 4 digitC))
        (.cat (.opt ofGroup)
          (.cat (.star wsC) (.cat (.opt dashC) (.cat (.star wsC) .eol)))))
      (lead + (dashPre dash1).length + (pagePre pg).length)
      (fun e => some e) = some input.length := by
    apply reMatch_cat_some
    apply reMatch_digits_run (d :: dstl) hd3 hdsall hstopDig hds1 hds5
    exact h6
  -- the optional Page prefix
  have h4 : reMatch input fuel
      (.cat (.opt pageGroup)
        (.cat (.cat (reReq 1 digitC) (reOptRep 4 digitC))
          (.cat (.opt ofGroup)
            (.cat (.star wsC) (.cat (.opt dashC) (.cat (.star wsC) .eol))))))
      (lead + (dashPre dash1).length)
      (fun e => some e) = some input.length := by
    apply reMatch_cat_some
    cases pg with
    | false =>
      have hpp0 : (pagePre false).length = 0 := rfl
      apply walk_page_skip hd2 hstopPp
      show reMatch input fuel
        (.cat (.cat (reReq 1 digitC) (reOptRep 4 digitC))
          (.cat (.opt ofGroup)
            (.cat (.star wsC) (.cat (.opt dashC) (.cat (.star wsC) .eol)))))
        (lead + (dashPre dash1).length) (fun e => some e) = some input.length
      rw [show lead + (dashPre dash1).length
            = lead + (dashPre dash1).length + (pagePre false).length from by omega]
      exact h5
    | true =>
      have hc : input.drop (lead + (dashPre dash1).length)
          = 'P' :: 'a' :: 'g' :: 'e' :: ' ' ::
            ((d :: dstl) ++ (sufPart suffix ++ (dashPost dash2 ++ List.replicate trail ' ')))
          := by simpa [pagePre] using hd2
      apply walk_page_take hc
        (show stopB isPyWs ((d :: dstl) ++ _) from hdw) hfuelpos
      have hpp5 : (pagePre true).length = 5 := rfl
      show reMatch input fuel
        (.cat (.cat (reReq 1 digitC) (reOptRep 4 digitC))
          (.cat (.opt ofGroup)
            (.cat (.star wsC) (.cat (.opt dashC) (.cat (.star wsC) .eol)))))
        (lead + (dashPre dash1).length + 5) (fun e => some e) = some input.length
      rw [show lead + (dashPre dash1).length + 5
            = lead + (dashPre dash1).length + (pagePre true).length from by omega]
      exact h5
  -- the optional leading dash and the whitespace after it
  have h2 : reMatch input fuel
      (.cat (.opt dashC)
        (.cat (.star wsC)
          (.cat (.opt pageGroup)
            (.cat (.cat (reReq 1 digitC) (reOptRep 4 digitC))
              (.cat (.opt ofGroup)
                (.cat (.star wsC) (.cat (.opt dashC) (.cat (.star wsC) .eol))))))))
      lead (fun e => some e) = some input.length := by
    apply reMatch_cat_some
    cases dash1 with
    | false =>
      have hdp0 : (dashPre false).length = 0 := rfl
      apply walk_dash_skip hd1 hstop2dash
      show reMatch input fuel
        (.cat (.star wsC) _) lead (fun e => some e) = some input.length
      apply reMatch_cat_some
      apply walk_starws_skip hd1 hstop2ws
      have hdp0 : (dashPre false).length = 0 := rfl
      show reMatch input fuel
        (.cat (.opt pageGroup)
          (.cat (.cat (reReq 1 digitC) (reOptRep 4 digitC))
            (.cat (.opt ofGroup)
              (.cat (.star wsC) (.cat (.opt dashC) (.cat (.star wsC) .eol))))))
        lead (fun e => some e) = some input.length
      rw [show lead = lead + (dashPre false).length from by omega]
      exact h4
    | true =>
      have hc : input.drop lead
          = '-' :: (' ' :: (pagePre pg ++ ((d :: dstl) ++
            (sufPart suffix ++ (dashPost dash2 ++ List.replicate trail ' ')))))
          := by simpa [dashPre] using hd1
      apply walk_dash_take hc
      show reMatch input fuel
        (.cat (.star wsC) _) (lead + 1) (fun e => some e) = some input.length
      apply reMatch_cat_some
      apply walk_starws_run [' '] (by simpa using drop_succ_of_drop_cons hc)
        (by decide) hstop2ws (by simp only [List.length_cons, List.length_nil]; omega)
      have hdp2 : (dashPre true).length = 2 := rfl
      show reMatch input fuel
        (.cat (.opt pageGroup)
          (.cat (.cat (reReq 1 digitC) (reOptRep 4 digitC))
            (.cat (.opt ofGroup)
              (.cat (.star wsC) (.cat (.opt dashC) (.cat (.star wsC) .eol))))))
        (lead + 1 + 1) (fun e => some e) = some input.length
      rw [show lead + 1 + 1 = lead + (dashPre true).length from by omega]
      exact h4
  -- assemble
  show reMatch input (input.length + 1) pattern2 0 (fun e => some e) = some input.length
  show reMatch input (input.length + 1)
    (.cat .bol (.cat (.star wsC)
      (.cat (.opt dashC)
        (.cat (.star wsC)
          (.cat (.opt pageGroup)
            (.cat (.cat (reReq 1 digitC) (reOptRep 4 digitC))
              (.cat (.opt ofGroup)
                (.cat (.star wsC) (.cat (.opt dashC) (.cat (.star wsC) .eol)))))))))) 0
    (fun e => some e) = some input.length
  apply reMatch_cat_some
  apply reMatch_bol_zero
  apply reMatch_cat_some
  apply walk_starws_rep lead (by simpa using hd0) hstop1 (by omega)
  show reMatch input fuel
    (.cat (.opt dashC)
      (.cat (.star wsC)
        (.cat (.opt pageGroup)
          (.cat (.cat (reReq 1 digitC) (reOptRep 4 digitC))
            (.cat (.opt ofGroup)
              (.cat (.star wsC) (.cat (.opt dashC) (.cat (.star wsC) .eol))))))))
    (0 + lead) (fun e => some e) = some input.length
  rw [Nat.zero_add]
  exact h2

end CaseLens

namespace CaseLens

/-! ### `re.sub` behaviour when the pattern never or fully matches -/

theorem reSubGo_no_match {r : RE} {repl input : List Char}
    (h : ∀ p, matchEndAt r input p = none) :
    ∀ fuel pos, input.length - pos < fuel → reSubGo r repl input pos fuel = input.drop pos := by
  intro fuel
  induction fuel with
  | zero => intro pos hp; omega
  | succ f ih =>
    intro pos hp
    show (if pos < input.length then
        match matchEndAt r input pos with
        | some e =>
          if pos < e then repl ++ reSubGo r repl input e f
          else input.getD pos ' ' :: reSubGo r repl input (pos + 1) f
        | none => input.getD pos ' ' :: reSubGo r repl input (pos + 1) f
      else []) = input.drop pos
    by_cases hlt : pos < input.length
    · rw [if_pos hlt, h pos]
      rw [ih (pos + 1) (by omega)]
      rw [List.getD_eq_getElem _ _ hlt, List.drop_eq_getElem_cons hlt]
    · rw [if_neg hlt, List.drop_eq_nil_of_le (by omega)]

theorem pySub_no_match {r : RE} {repl input : List Char}
    (h : ∀ p, matchEndAt r input p = none) : pySub r repl input = input := by
  show reSubGo r repl input 0 (input.length + 1) = input
  rw [reSubGo_no_match h (input.length + 1) 0 (by omega), List.drop_zero]

theorem reSubGo_at_end {r : RE} {repl input : List Char} {pos fuel : Nat}
    (h : input.length ≤ pos) : reSubGo r repl input pos fuel = [] := by
  cases fuel with
  | zero => rfl
  | succ f =>
    show (if pos < input.length then _ else []) = []
    rw [if_neg (by omega)]

/-- If the pattern matches the whole input at position 0, substituting the
empty replacement yields the empty string. -/
theorem pySub_full {r : RE} {input : List Char}
    (h0 : matchEndAt r input 0 = some input.length) (hne : 0 < input.length) :
    pySub r [] input = [] := by
  show reSubGo r [] input 0 (input.length + 1) = []
  show (if 0 < input.length then
      match matchEndAt r input 0 with
      | some e =>
        if 0 < e then [] ++ reSubGo r [] input e input.length
        else input.getD 0 ' ' :: reSubGo r [] input 1 input.length
      | none => input.getD 0 ' ' :: reSubGo r [] input 1 input.length
    else []) = []
  rw [if_pos hne, h0]
  show (if 0 < input.length then [] ++ reSubGo r [] input input.length input.length
    else input.getD 0 ' ' :: reSubGo r [] input 1 input.length) = []
  rw [if_pos hne, List.nil_append, reSubGo_at_end (Nat.le_refl _)]

theorem pySub_nil {r : RE} {repl : List Char} : pySub r repl [] = [] := rfl

/-! ### Pattern 1 cannot fire without two adjacent uppercase letters -/

def upAt (input : List Char) (i : Nat) : Bool :=
  match input.get? i with
  | some c => 'A' ≤ c && c ≤ 'Z'
  | none => false

theorem reMatch_cls_pass {input : List Char} {fuel : Nat} {p : Char → Bool} {pos : Nat}
    {k : Nat → Option Nat} {c : Char}
    (hg : input.get? pos = some c) (hp : p c = true) :
    reMatch input fuel (.cls p) pos k = k (pos + 1) := by
  rw [reMatch_cls, hg]
  simp [hp]

theorem pattern1_none {input : List Char} {pos : Nat}
    (h : ¬(upAt input pos = true ∧ upAt input (pos + 1) = true)) :
    matchEndAt pattern1 input pos = none := by
  show reMatch input (input.length + 1)
    (.cat .wordB (.cat (.cat (reReq 2 upperAZ) (reOptRep 8 upperAZ))
      (.cat (.cls (fun c => c = '-' || isPyWs c))
        (.cat (.cat (reReq 6 digitC) (reOptRep 4 digitC)) .wordB))))
    pos (fun e => some e) = none
  rw [reMatch_cat]
  apply reMatch_wordB_none
  show reMatch input (input.length + 1)
    (.cat (.cat (reReq 2 upperAZ) (reOptRep 8 upperAZ))
      (.cat (.cls (fun c => c = '-' || isPyWs c))
        (.cat (.cat (reReq 6 digitC) (reOptRep 4 digitC)) .wordB)))
    pos _ = none
  rw [reMatch_cat, reMatch_cat]
  show reMatch input (input.length + 1)
    (.cat upperAZ (.cat upperAZ (reReq 0 upperAZ))) pos _ = none
  rw [reMatch_cat]
  show reMatch input (input.length + 1)
    (.cls fun c => 'A' ≤ c && c ≤ 'Z') pos _ = none
  cases hget : input.get? pos with
  | none => exact reMatch_cls_none_end hget
  | some c =>
    by_cases hup : ('A' ≤ c && c ≤ 'Z') = true
    · rw [reMatch_cls_pass hget hup]
      have h2 : upAt input (pos + 1) = false := by
        cases h2t : upAt input (pos + 1) with
        | false => rfl
        | true =>
          exact absurd ⟨by unfold upAt; rw [hget]; exact hup, h2t⟩ h
      show reMatch input (input.length + 1)
        (.cat upperAZ (reReq 0 upperAZ)) (pos + 1) _ = none
      rw [reMatch_cat]
      show reMatch input (input.length + 1)
        (.cls fun c => 'A' ≤ c && c ≤ 'Z') (pos + 1) _ = none
      cases hget2 : input.get? (pos + 1) with
      | none => exact reMatch_cls_none_end hget2
      | some c2 =>
        apply reMatch_cls_none_false hget2
        unfold upAt at h2
        rw [hget2] at h2
        exact h2
    · exact reMatch_cls_none_false hget (by simpa using hup)

theorem upAt_false_of_noUp {input : List Char}
    (h : ∀ c ∈ input, ('A' ≤ c && c ≤ 'Z') = false) (pos : Nat) :
    upAt input pos = false := by
  unfold upAt
  cases hg : input.get? pos with
  | none => rfl
  | some c => exact h c (List.get?_mem hg)

/-- In `A ++ 'P' :: rest` with no uppercase in `A` or `rest`, an uppercase
letter can only sit at index `A.length`. -/
theorem upAt_unique {A rest : List Char} {i : Nat}
    (hA : ∀ c ∈ A, ('A' ≤ c && c ≤ 'Z') = false)
    (hrest : ∀ c ∈ rest, ('A' ≤ c && c ≤ 'Z') = false)
    (h : upAt (A ++ ('P' :: rest)) i = true) : i = A.length := by
  unfold upAt at h
  rw [List.get?_eq_getElem?] at h
  rcases Nat.lt_trichotomy i A.length with hi | hi | hi
  · rw [List.getElem?_append_left hi] at h
    cases hg : A[i]? with
    | none => rw [hg] at h; exact absurd h (by simp)
    | some c =>
      rw [hg] at h
      simp only [hA c (List.getElem?_mem hg)] at h
      exact absurd h (by simp)
  · exact hi
  · rw [List.getElem?_append_right (by omega)] at h
    obtain ⟨m, hm⟩ : ∃ m, i - A.length = m + 1 := ⟨i - A.length - 1, by omega⟩
    rw [hm, List.getElem?_cons_succ] at h
    cases hg : rest[m]? with
    | none => rw [hg] at h; exact absurd h (by simp)
    | some c =>
      rw [hg] at h
      simp only [hrest c (List.getElem?_mem hg)] at h
      exact absurd h (by simp)

end CaseLens

namespace CaseLens

theorem nonup_replicate (n : Nat) :
    ∀ c ∈ List.replicate n ' ', ('A' ≤ c && c ≤ 'Z') = false := by
  intro c hc
  rw [List.eq_of_mem_replicate hc]
  decide

theorem nonup_dashPre (b : Bool) :
    ∀ c ∈ dashPre b, ('A' ≤ c && c ≤ 'Z') = false := by
  cases b <;> decide

theorem nonup_dashPost (b : Bool) :
    ∀ c ∈ dashPost b, ('A' ≤ c && c ≤ 'Z') = false := by
  cases b <;> decide

theorem nonup_sufPart {suffix : Option (List Char × List Char)} (hsuf : sufOK suffix) :
    ∀ c ∈ sufPart suffix, ('A' ≤ c && c ≤ 'Z') = false := by
  rcases suffix with _ | ⟨kw, ds2⟩
  · intro c hc
    simp [sufPart] at hc
  · obtain ⟨hkw, _, _, hall⟩ := hsuf
    intro c hc
    simp only [sufPart, List.mem_cons, List.mem_append] at hc
    rcases hc with rfl | hc | rfl | hc
    · decide
    · rcases hkw with rfl | rfl | rfl <;> (fin_cases hc <;> decide)
    · decide
    · exact digit_not_upper (hall c hc)

theorem pnLine_noadj (lead : Nat) (dash1 pg : Bool) (ds : List Char)
    (suffix : Option (List Char × List Char)) (dash2 : Bool) (trail : Nat)
    (hds : ∀ c ∈ ds, c.isDigit = true) (hsuf : sufOK suffix) :
    ∀ pos, ¬(upAt (pnLine lead dash1 pg ds suffix dash2 trail) pos = true ∧
      upAt (pnLine lead dash1 pg ds suffix dash2 trail) (pos + 1) = true) := by
  cases pg with
  | false =>
    have hnu : ∀ c ∈ pnLine lead dash1 false ds suffix dash2 trail,
        ('A' ≤ c && c ≤ 'Z') = false := by
      intro c hc
      simp only [pnLine, List.mem_append] at hc
      rcases hc with hc | hc | hc | hc | hc | hc | hc
      · exact nonup_replicate lead c hc
      · exact nonup_dashPre dash1 c hc
      · simp [pagePre] at hc
      · exact digit_not_upper (hds c hc)
      · exact nonup_sufPart hsuf c hc
      · exact nonup_dashPost dash2 c hc
      · exact nonup_replicate trail c hc
    intro pos hpair
    obtain ⟨h1, _⟩ := hpair
    rw [upAt_false_of_noUp hnu pos] at h1
    exact absurd h1 (by simp)
  | true =>
    have hform : pnLine lead dash1 true ds suffix dash2 trail
        = (List.replicate lead ' ' ++ dashPre dash1) ++
          ('P' :: ('a' :: 'g' :: 'e' :: ' ' ::
            (ds ++ (sufPart suffix ++ (dashPost dash2 ++ List.replicate trail ' '))))) := by
      simp [pnLine, pagePre, List.append_assoc]
    have hA : ∀ c ∈ List.replicate lead ' ' ++ dashPre dash1,
        ('A' ≤ c && c ≤ 'Z') = false := by
      intro c hc
      rcases List.mem_append.mp hc with hc | hc
      · exact nonup_replicate lead c hc
      · exact nonup_dashPre dash1 c hc
    have hrest : ∀ c ∈ 'a' :: 'g' :: 'e' :: ' ' ::
        (ds ++ (sufPart suffix ++ (dashPost dash2 ++ List.replicate trail ' '))),
        ('A' ≤ c && c ≤ 'Z') = false := by
      intro c hc
      simp only [List.mem_cons, List.mem_append] at hc
      rcases hc with rfl | rfl | rfl | rfl | hc | hc | hc | hc
      · decide
      · decide
      · decide
      · decide
      · exact digit_not_upper (hds c hc)
      · exact nonup_sufPart hsuf c hc
      · exact nonup_dashPost dash2 c hc
      · exact nonup_replicate trail c hc
    intro pos hpair
    obtain ⟨h1, h2⟩ := hpair
    rw [hform] at h1 h2
    have e1 := upAt_unique hA hrest h1
    have e2 := upAt_unique hA hrest h2
    omega

/-- Cleaning a standalone page-number line yields the empty string: pattern 1
cannot fire (no two adjacent uppercase letters), pattern 2 erases the whole
line, and every later pattern leaves the empty string alone. -/
theorem clean_text_pnLine (lead : Nat) (dash1 pg : Bool) (ds : List Char)
    (suffix : Option (List Char × List Char)) (dash2 : Bool) (trail : Nat)
    (hds : digits15 ds) (hsuf : sufOK suffix) :
    clean_text (pnLine lead dash1 pg ds suffix dash2 trail) = [] := by
  obtain ⟨hds1, hds5, hdsall⟩ := hds
  have hlen1 : 0 < (pnLine lead dash1 pg ds suffix dash2 trail).length := by
    simp only [pnLine, List.length_append, List.length_replicate]
    omega
  have hne : pnLine lead dash1 pg ds suffix dash2 trail ≠ [] := by
    intro e
    rw [e] at hlen1
    simp at hlen1
  have hp1 : pySub pattern1 [] (pnLine lead dash1 pg ds suffix dash2 trail)
      = pnLine lead dash1 pg ds suffix dash2 trail :=
    pySub_no_match (fun p =>
      pattern1_none (pnLine_noadj lead dash1 pg ds suffix dash2 trail hdsall hsuf p))
  have hp2 : pySub pattern2 [] (pnLine lead dash1 pg ds suffix dash2 trail) = [] :=
    pySub_full
      (pattern2_matches_pnLine lead dash1 pg ds suffix dash2 trail ⟨hds1, hds5, hdsall⟩ hsuf)
      hlen1
  show clean_text (pnLine lead dash1 pg ds suffix dash2 trail) = []
  unfold clean_text
  rw [if_neg hne]
  simp only [CLEANING_PATTERNS, List.foldl_cons, List.foldl_nil]
  rw [hp1, hp2]
  rfl

/-- C7: the cleaner removes every standalone page-number line (optional dash,
optional `Page` prefix, 1–5 digits, optional `of/de/sur N` suffix, optional
trailing dash, with optional surrounding spaces), removes the standalone
`"  42  "` line of `"Content.\n  42  \nMore."` while keeping the surrounding
lines, and leaves the inline `42` of the Article sentence untouched. -/
theorem clean_page_number_removal :
    (∀ lead dash1 pg ds suffix dash2 trail, digits15 ds → sufOK suffix →
      clean_text (pnLine lead dash1 pg ds suffix dash2 trail) = []) ∧
    clean_text ("Content.\n  42  \nMore.".toList) = "Content.\n\nMore.".toList ∧
    clean_text ("Article 42 of the Civil Code requires compliance.".toList)
      = "Article 42 of the Civil Code requires compliance.".toList :=
  ⟨fun lead dash1 pg ds suffix dash2 trail hds hsuf =>
     clean_text_pnLine lead dash1 pg ds suffix dash2 trail hds hsuf,
   by decide, by decide⟩

end CaseLens

namespace CaseLens

/-! ## A model of `process`, `_attempt_ocr` and `OcrEngine.ocr_pages` -/

/-- The OCR engine of `ocr.py`, as much of it as `_attempt_ocr` observes:
`check_availability()` (with its reason abstracted away), whether
`ocr_pages` raises, and the text Tesseract recovers per page. -/
structure OcrEngineEnv where
  available : Bool
  raises : Bool
  recov : Nat → List Char

/-- `OcrEngine.ocr_pages` (ocr.py, lines 80–109) when no exception occurs: an
insertion-ordered mapping `page_number ↦ recovered_text.strip()` — a single
dict, not a pair. -/
def ocr_pages (env : OcrEngineEnv) (page_numbers : List Nat) : List (Nat × List Char) :=
  page_numbers.map (fun n => (n, pyStrip (env.recov n)))

/-- The outcome of `_attempt_ocr`: an error dict (`err`), an info dict
(`info ocr_applied ocr_page_nums warning`), or an uncaught Python
exception (`boom`). -/
inductive AttemptOut where
  | err (kind : List Char)
  | info (applied : Bool) (pages : List Nat) (warning : Bool)
  | boom
  deriving Repr, DecidableEq

/-- The sparse page numbers `_attempt_ocr` sends to OCR. -/
def sparsePageNums (pages : List Page) : List Nat :=
  (pages.filter (fun p => isSparse p)).map (fun p => p.page_number)

/-- `PdfProcessor._attempt_ocr` (lines 260–323) composed with the real
`OcrEngine.ocr_pages`.  The line
`ocr_texts, skipped_pages = engine.ocr_pages(filepath, sparse_page_nums)`
tuple-unpacks the returned dict, which iterates its keys: with exactly two
distinct keys the unpack binds two page numbers and the later
`ocr_texts.items()` raises an uncaught `AttributeError` (`boom`); with any
other number of keys the unpack raises a `ValueError` inside the `try`,
reported as `ocr_failed`.  The success path of the claim is unreachable. -/
def attempt_ocr (env : OcrEngineEnv) (pages : List Page) : AttemptOut :=
  if env.available = false then .err "ocr_unavailable".toList
  else
    let sparse := sparsePageNums pages
    if sparse = [] then .info false [] false
    else if env.raises then .err "ocr_failed".toList
    else if (((ocr_pages env sparse).map Prod.fst).dedup).length = 2 then .boom
    else .err "ocr_failed".toList

/-- A Python exception, as much of it as `process` inspects
(`_is_encryption_error`). -/
structure PyExc where
  isEncryption : Bool

/-- The fallback extractor `_extract_with_pypdf`: pages, a
`PasswordProtectedError`, or some other exception. -/
inductive FallbackOut where
  | pages (ps : List Page)
  | passwordProtected
  | raisesOther

/-- `validate_pdf`: a page count, a `protected_pdf` error, or another
validation error (which `process` ignores). -/
inductive ValidationOut where
  | ok (page_count : Nat)
  | errProtected
  | errOther

/-- Everything `process` observes from the outside world. -/
structure ProcEnv where
  fileExists : Bool
  hasPdfExt : Bool
  validation : ValidationOut
  primary : Except PyExc (List Page)
  fallback : FallbackOut
  ocr : OcrEngineEnv

/-- The metadata dict of a success result.  `ocr_applied`/`ocr_pages` are
`none` when the key is absent; `ocr_warning` records the key's presence. -/
structure Metadata where
  total_pages : Nat
  is_chunked : Bool
  ocr_applied : Option Bool
  ocr_pages : Option (List Nat)
  ocr_warning : Bool
  deriving Repr, DecidableEq

/-- The value `process` produces: an error dict, a success dict, or an
uncaught Python exception (`boom`). -/
inductive ProcResult where
  | error (kind : List Char)
  | success (pages : List (Nat × List Char)) (chunks : List Chunk) (meta : Metadata)
  | boom
  deriving Repr, DecidableEq

/-- `PdfProcessor._build_result` (lines 430–456): the OCR keys are attached
only when `ocr_info.get("ocr_applied")` is truthy. -/
def build_result (pages : List Page) (chunks : List Chunk)
    (applied : Bool) (ocrPages : List Nat) (warning : Bool) : ProcResult :=
  .success
    (pages.map fun p => (p.page_number, p.cleaned_text))
    chunks
    { total_pages := pages.length
      is_chunked := decide (1 < chunks.length)
      ocr_applied := if applied then some true else none
      ocr_pages := if applied then some ocrPages else none
      ocr_warning := applied && warning }

/-- The cleaning loop of `process`. -/
def clean_pages (pages : List Page) : List Page :=
  pages.map fun p => { p with cleaned_text := clean_text p.raw_text }

/-- Clean, chunk and build the final result. -/
def finishPages (pages : List Page) (applied : Bool) (ops : List Nat)
    (warn : Bool) : ProcResult :=
  build_result (clean_pages pages) (chunk_pages (clean_pages pages)) applied ops warn

/-- `process` after extraction: scanned-document detection, OCR attempt,
cleaning, chunking, result assembly. -/
def processAfterExtract (env : ProcEnv) (pages : List Page) : ProcResult :=
  if detect_scanned pages then
    match attempt_ocr env.ocr pages with
    | .err k => .error k
    | .boom => .boom
    | .info applied ops warn => finishPages pages applied ops warn
  else finishPages pages false [] false

/-- The extraction step of `process`: primary extractor, encryption
short-circuit, fallback extractor. -/
def processExtract (env : ProcEnv) : ProcResult :=
  match env.primary with
  | .ok pages => processAfterExtract env pages
  | .error e =>
    if e.isEncryption then .error "protected_pdf".toList
    else
      match env.fallback with
      | .passwordProtected => .error "protected_pdf".toList
      | .raisesOther => .error "extraction_failed".toList
      | .pages ps => processAfterExtract env ps

/-- `PdfProcessor.process` (lines 83–164). -/
def processModel (env : ProcEnv) : ProcResult :=
  if env.fileExists = false then .error "file_not_found".toList
  else if env.hasPdfExt = false then .error "invalid_format".toList
  else
    match env.validation with
    | .errProtected => .error "protected_pdf".toList
    | .errOther => processExtract env
    | .ok count =>
      if MAX_PAGES < count then .error "document_too_large".toList
      else processExtract env

/-! ## The in-place OCR text replacement loop of `_attempt_ocr` -/

/-- Set `raw_text` on the first matching page (used on the reversed list:
`page_map[n]` is the last page whose number is `n`). -/
def setFirst : List Page → Nat → List Char → List Page
  | [], _, _ => []
  | p :: ps, n, t =>
    if p.page_number = n then { p with raw_text := t } :: ps
    else p :: setFirst ps n t

/-- `page_map[page_num]["raw_text"] = text` for one dict entry: the page the
mutation reaches is the last one with that number (dict construction keeps the
last page per number). -/
def setRaw (pages : List Page) (n : Nat) (t : List Char) : List Page :=
  (setFirst pages.reverse n t).reverse

/-- The replacement loop `for page_num, text in ocr_texts.items(): ...`
(lines 307–311). -/
def applyOcrTexts (pages : List Page) (texts : List (Nat × List Char)) : List Page :=
  texts.foldl (fun ps nt => setRaw ps nt.1 nt.2) pages

end CaseLens

namespace CaseLens

/-- A scanned document has at least one sparse page. -/
theorem sparse_ne_of_detect {pages : List Page} (h : detect_scanned pages = true) :
    sparsePageNums pages ≠ [] := by
  unfold detect_scanned at h
  by_cases he : pages.isEmpty
  · rw [if_pos he] at h
    exact absurd h (by simp)
  · rw [if_neg he] at h
    have hc : 4 * pages.length ≤ 5 * pages.countP (fun p => isSparse p) := by
      simpa using h
    have hl : 0 < pages.length := by
      cases pages with
      | nil => simp at he
      | cons a b => simp
    unfold sparsePageNums
    intro he2
    rw [List.map_eq_nil_iff] at he2
    rw [List.countP_eq_length_filter, he2] at hc
    simp only [List.length_nil, Nat.mul_zero] at hc
    omega

/-- The OCR-related invariant of a success result's metadata. -/
def MetaOcrInv (m : Metadata) : Prop :=
  m.ocr_applied ≠ some false ∧
  (m.ocr_applied = none → m.ocr_pages = none ∧ m.ocr_warning = false) ∧
  (∀ b, m.ocr_applied = some b → b = true ∧ m.ocr_pages ≠ none)

theorem build_result_meta {pages : List Page} {chunks : List Chunk}
    {applied : Bool} {ops : List Nat} {warn : Bool}
    {p : List (Nat × List Char)} {c : List Chunk} {m : Metadata}
    (h : build_result pages chunks applied ops warn = .success p c m) :
    MetaOcrInv m ∧ (m.ocr_applied = some true → m.ocr_pages = some ops) := by
  unfold build_result at h
  obtain ⟨-, -, hm⟩ := ProcResult.success.inj h
  subst hm
  cases applied with
  | false =>
    refine ⟨⟨by simp, by intro _; simp, ?_⟩, by intro hc; simp at hc⟩
    intro b hb
    simp at hb
  | true =>
    refine ⟨⟨by simp, by intro hc; simp at hc, ?_⟩, by intro _; simp⟩
    intro b hb
    simp at hb
    simp [hb]

/-- Whatever `process` returns, a success result was assembled by
`_build_result`. -/
theorem processModel_success_inv {env : ProcEnv}
    {p : List (Nat × List Char)} {c : List Chunk} {m : Metadata}
    (h : processModel env = .success p c m) : MetaOcrInv m := by
  unfold processModel processExtract processAfterExtract finishPages at h
  repeat' split at h
  all_goals first
    | exact absurd h (by simp)
    | exact (build_result_meta h).1

/-- C10: in a success result the OCR metadata keys are governed by
`_build_result`: `ocr_applied` is never present with value `false`; when all
OCR keys are absent nothing OCR-related leaks; and when `ocr_applied` is
present it is `true` and `ocr_pages` is present alongside it (with the page
list `_attempt_ocr` reported). -/
theorem success_metadata_ocr :
    (∀ pages chunks applied ops warn p c m,
      build_result pages chunks applied ops warn = .success p c m →
      MetaOcrInv m ∧ (m.ocr_applied = some true → m.ocr_pages = some ops)) ∧
    (∀ env p c m, processModel env = .success p c m → MetaOcrInv m) :=
  ⟨fun _ _ _ _ _ _ _ _ h => build_result_meta h,
   fun _ _ _ _ h => processModel_success_inv h⟩

/-- C8: when the primary extractor raises an exception whose signature
indicates encryption, `process` returns the `protected_pdf` error, and the
result does not depend on the fallback extractor in any way (it is the same
for every possible fallback outcome, so the fallback is never consulted). -/
theorem protected_pdf_short_circuit (env : ProcEnv) (e : PyExc)
    (hfe : env.fileExists = true) (hext : env.hasPdfExt = true)
    (hprim : env.primary = .error e) (henc : e.isEncryption = true)
    (hval : env.validation = .errOther ∨
      ∃ n, env.validation = .ok n ∧ n ≤ MAX_PAGES) :
    ∀ fb : FallbackOut,
      processModel { env with fallback := fb } = .error "protected_pdf".toList := by
  intro fb
  unfold processModel processExtract
  simp only [hfe, hext]
  rcases hval with hv | ⟨n, hv, hn⟩
  · simp [hv, hprim, henc]
  · simp [hv, hprim, henc, Nat.not_lt.mpr hn]

def encEnv : ProcEnv :=
  { fileExists := true
    hasPdfExt := true
    validation := .ok 1
    primary := .error { isEncryption := true }
    fallback := .pages []
    ocr := { available := false, raises := false, recov := fun _ => [] } }

/-- Witness for C8: a concrete environment whose primary extraction raises an
encryption error is reported as `protected_pdf` for both fallback outcomes. -/
theorem protected_pdf_short_circuit_witness :
    processModel { encEnv with fallback := .raisesOther }
      = .error "protected_pdf".toList ∧
    processModel { encEnv with fallback := .passwordProtected }
      = .error "protected_pdf".toList :=
  ⟨protected_pdf_short_circuit encEnv { isEncryption := true } rfl rfl rfl rfl
      (Or.inr ⟨1, rfl, by decide⟩) .raisesOther,
   protected_pdf_short_circuit encEnv { isEncryption := true } rfl rfl rfl rfl
      (Or.inr ⟨1, rfl, by decide⟩) .passwordProtected⟩

def blankPageN (n : Nat) : Page :=
  { page_number := n, raw_text := [], has_images := true }

def ocrEnvOk : OcrEngineEnv :=
  { available := true, raises := false, recov := fun _ => "Recovered text.".toList }

def cex1Env : ProcEnv :=
  { fileExists := true
    hasPdfExt := true
    validation := .ok 1
    primary := .ok [blankPageN 1]
    fallback := .pages []
    ocr := ocrEnvOk }

def cex2Env : ProcEnv :=
  { fileExists := true
    hasPdfExt := true
    validation := .ok 2
    primary := .ok [blankPageN 1, blankPageN 2]
    fallback := .pages []
    ocr := ocrEnvOk }

/-- C1: the claimed OCR success scenario is impossible.  `OcrEngine.ocr_pages`
returns a single `dict[int, str]`, but `_attempt_ocr` tuple-unpacks it
(`ocr_texts, skipped_pages = engine.ocr_pages(...)`), iterating the dict's
keys: whenever the detector fires, OCR is available and the engine succeeds
for every requested page, `process` still never returns a success result — it
returns the `ocr_failed` error dict (the unpack's `ValueError` is caught), or,
with exactly two sparse pages, raises an uncaught `AttributeError` when
`ocr_texts.items()` is called on an `int`.  Both failure modes are shown on
concrete one- and two-page scanned documents. -/
theorem ocr_dict_unpack_bug :
    (∀ (env : ProcEnv) (pages : List Page) (n : Nat),
      env.fileExists = true → env.hasPdfExt = true →
      env.validation = .ok n → n ≤ MAX_PAGES →
      env.primary = .ok pages →
      detect_scanned pages = true →
      env.ocr.available = true → env.ocr.raises = false →
      ∀ p c m, processModel env ≠ .success p c m) ∧
    processModel cex1Env = .error "ocr_failed".toList ∧
    processModel cex2Env = .boom := by
  refine ⟨?_, by decide, by decide⟩
  intro env pages n hfe hext hval hn hprim hdet hav hraise p c m
  unfold processModel processExtract processAfterExtract attempt_ocr
  simp only [hfe, hext, hval, hprim, hav, hraise, hdet, Nat.not_lt.mpr hn]
  rw [if_neg (by simp), if_neg (sparse_ne_of_detect hdet)]
  by_cases hk :
      ((List.map Prod.fst (ocr_pages env.ocr (sparsePageNums pages))).dedup).length = 2
  · rw [if_pos hk]
    simp
  · rw [if_neg hk]
    simp

/-- One `page_map[n]["raw_text"] = t` step, pointwise: every page keeps its
number, images flag and cleaned text; `raw_text` is kept unless the page bears
the assigned number. -/
theorem setFirst_forall2 (ps : List Page) (n : Nat) (t : List Char) :
    List.Forall₂ (fun p q =>
      q.page_number = p.page_number ∧ q.has_images = p.has_images ∧
      q.cleaned_text = p.cleaned_text ∧
      (q.raw_text = p.raw_text ∨ (p.page_number = n ∧ q.raw_text = t)))
      ps (setFirst ps n t) := by
  induction ps with
  | nil => exact List.Forall₂.nil
  | cons p ps ih =>
    show List.Forall₂ _ (p :: ps)
      (if p.page_number = n then { p with raw_text := t } :: ps
       else p :: setFirst ps n t)
    by_cases hp : p.page_number = n
    · rw [if_pos hp]
      exact List.Forall₂.cons ⟨rfl, rfl, rfl, Or.inr ⟨hp, rfl⟩⟩
        ((List.forall₂_same).mpr (fun x _ => ⟨rfl, rfl, rfl, Or.inl rfl⟩))
    · rw [if_neg hp]
      exact List.Forall₂.cons ⟨rfl, rfl, rfl, Or.inl rfl⟩ ih

theorem setRaw_forall2 (ps : List Page) (n : Nat) (t : List Char) :
    List.Forall₂ (fun p q =>
      q.page_number = p.page_number ∧ q.has_images = p.has_images ∧
      q.cleaned_text = p.cleaned_text ∧
      (q.raw_text = p.raw_text ∨ (p.page_number = n ∧ q.raw_text = t)))
      ps (setRaw ps n t) := by
  unfold setRaw
  rw [show ps = ps.reverse.reverse from (List.reverse_reverse ps).symm]
  rw [List.forall₂_reverse_iff, List.reverse_reverse]
  exact setFirst_forall2 ps.reverse n t

/-- The whole replacement loop, pointwise: numbers, image flags and cleaned
text never change, and `raw_text` changes only on pages whose number is among
the OCR'd keys. -/
theorem applyOcrTexts_forall2 (pages : List Page) (texts : List (Nat × List Char)) :
    List.Forall₂ (fun p q =>
      q.page_number = p.page_number ∧ q.has_images = p.has_images ∧
      q.cleaned_text = p.cleaned_text ∧
      (q.raw_text = p.raw_text ∨ p.page_number ∈ texts.map Prod.fst))
      pages (applyOcrTexts pages texts) := by
  induction texts generalizing pages with
  | nil =>
    exact (List.forall₂_same).mpr (fun x _ => ⟨rfl, rfl, rfl, Or.inl rfl⟩)
  | cons nt rest ih =>
    show List.Forall₂ _ pages (applyOcrTexts (setRaw pages nt.1 nt.2) rest)
    have h1 := setRaw_forall2 pages nt.1 nt.2
    have h2 := ih (setRaw pages nt.1 nt.2)
    rw [List.forall₂_iff_get] at h1 h2 ⊢
    obtain ⟨hl1, hp1⟩ := h1
    obtain ⟨hl2, hp2⟩ := h2
    refine ⟨hl1.trans hl2, fun i hi1 hi2 => ?_⟩
    obtain ⟨e1, e2, e3, e4⟩ := hp1 i hi1 (by omega)
    obtain ⟨f1, f2, f3, f4⟩ := hp2 i (by omega) hi2
    refine ⟨f1.trans e1, f2.trans e2, f3.trans e3, ?_⟩
    rcases f4 with f4 | f4
    · rcases e4 with e4 | ⟨e4a, e4b⟩
      · exact Or.inl (f4.trans e4)
      · exact Or.inr (by rw [List.map_cons, e4a]; exact List.mem_cons_self _ _)
    · rw [e1] at f4
      exact Or.inr (by rw [List.map_cons]; exact List.mem_cons_of_mem _ f4)

/-- C9: the OCR replacement loop touches only the targeted pages: page
numbers and image flags are identical before and after; any page whose number
was not OCR'd keeps its `raw_text`; and when the OCR'd numbers all come from
sparse pages of a duplicate-free document, every page with sufficient
original text keeps its `raw_text`. -/
theorem ocr_replacement_frame (pages : List Page) (texts : List (Nat × List Char))
    (hkeys : ∀ nt ∈ texts, nt.1 ∈ sparsePageNums pages)
    (hnodup : (pages.map (fun p => p.page_number)).Nodup) :
    (applyOcrTexts pages texts).map (fun p => p.page_number)
        = pages.map (fun p => p.page_number) ∧
    (applyOcrTexts pages texts).map (fun p => p.has_images)
        = pages.map (fun p => p.has_images) ∧
    List.Forall₂ (fun p q =>
        p.page_number ∉ texts.map Prod.fst → q.raw_text = p.raw_text)
      pages (applyOcrTexts pages texts) ∧
    List.Forall₂ (fun p q => isSparse p = false → q.raw_text = p.raw_text)
      pages (applyOcrTexts pages texts) := by
  have hmain := applyOcrTexts_forall2 pages texts
  have hnotin : ∀ p ∈ pages, isSparse p = false → p.page_number ∉ texts.map Prod.fst := by
    intro p hp hs hmem
    obtain ⟨nt, hnt, hn⟩ := List.mem_map.mp hmem
    have hsp := hkeys nt hnt
    rw [hn] at hsp
    obtain ⟨q, hq, hqn⟩ := List.mem_map.mp hsp
    obtain ⟨hqmem, hqsparse⟩ := List.mem_filter.mp hq
    have : q = p := List.inj_on_of_nodup_map hnodup hqmem hp hqn
    rw [this] at hqsparse
    rw [hs] at hqsparse
    exact absurd hqsparse (by simp)
  rw [List.forall₂_iff_get] at hmain
  obtain ⟨hlen, hpt⟩ := hmain
  refine ⟨?_, ?_, ?_, ?_⟩
  · apply List.ext_get (by simp [hlen.symm])
    intro i h1 h2
    simp only [List.get_map]
    exact (hpt i (by simp at h2; omega) (by simp at h1; omega)).1
  · apply List.ext_get (by simp [hlen.symm])
    intro i h1 h2
    simp only [List.get_map]
    exact (hpt i (by simp at h2; omega) (by simp at h1; omega)).2.1
  · rw [List.forall₂_iff_get]
    refine ⟨hlen, fun i h1 h2 => ?_⟩
    intro hni
    rcases (hpt i h1 h2).2.2.2 with h | h
    · exact h
    · exact absurd h hni
  · rw [List.forall₂_iff_get]
    refine ⟨hlen, fun i h1 h2 => ?_⟩
    intro hs
    rcases (hpt i h1 h2).2.2.2 with h | h
    · exact h
    · exact absurd h (hnotin _ (List.get_mem pages i h1) hs)

def framePages : List Page :=
  [{ page_number := 1, raw_text := [], has_images := true },
   { page_number := 2,
     raw_text := List.replicate 60 'a', has_images := false }]

/-- Witness for C9: a two-page document whose sparse first page is OCR'd. -/
theorem ocr_replacement_frame_witness :
    (applyOcrTexts framePages [(1, "Recovered.".toList)]).map (fun p => p.page_number)
        = framePages.map (fun p => p.page_number) ∧
    (applyOcrTexts framePages [(1, "Recovered.".toList)]).map (fun p => p.has_images)
        = framePages.map (fun p => p.has_images) ∧
    List.Forall₂ (fun p q =>
        p.page_number ∉ ([(1, "Recovered.".toList)].map Prod.fst : List Nat) →
          q.raw_text = p.raw_text)
      framePages (applyOcrTexts framePages [(1, "Recovered.".toList)]) ∧
    List.Forall₂ (fun p q => isSparse p = false → q.raw_text = p.raw_text)
      framePages (applyOcrTexts framePages [(1, "Recovered.".toList)]) :=
  ocr_replacement_frame framePages [(1, "Recovered.".toList)]
    (by decide) (by decide)
end CaseLens
